import Mathlib

/-!
Shallow embedding of the claude-app-server turn execution engine
(src/protocol.ts, src/types.ts, src/server.ts).

Conventions of the embedding:
* uuid() and Date.now() are modelled by explicit counters / clock arguments
  passed into each operation (`nextId`, `now`).
* JavaScript string falsiness (`if (event.session_id)`) is modelled by
  capturing a session id only when it is a nonempty string, so that
  `Option.isSome` coincides with JS truthiness everywhere the code tests it.
* A thrown `RpcException` is an `Except.error` carrying the code and message;
  every handler returns the store alongside the outcome, so that a theorem
  can speak about the store on the error path (all throws in the embedded
  handlers happen before any mutation, exactly as in the source).
* The live `ChildProcess` handle is an opaque `Option Nat` (a pid), and the
  `AbortController` is its observable `aborted : Bool` flag.
-/

-- ─── protocol.ts: error codes and exceptions ────────────────────────────────

namespace E

def ParseError : Int := -32700
def InvalidRequest : Int := -32600
def MethodNotFound : Int := -32601
def InvalidParams : Int := -32602
def InternalError : Int := -32603
def NotInitialized : Int := -32000
def ThreadNotFound : Int := -32001
def TurnBusy : Int := -32003
def NoActiveTurn : Int := -32004

end E

structure RpcError where
  code : Int
  message : String
deriving DecidableEq

-- ─── types.ts: domain types ─────────────────────────────────────────────────

inductive PermissionMode
  | default
  | acceptEdits
  | bypassPermissions
  | dontAsk
deriving DecidableEq

/-- The string passed to the --permission-mode flag (the TS union is a string
union; the Lean inductive carries the same four values). -/
def PermissionMode.flag : PermissionMode → String
  | .default => "default"
  | .acceptEdits => "acceptEdits"
  | .bypassPermissions => "bypassPermissions"
  | .dontAsk => "dontAsk"

inductive Item
  | text (text : String)
  | thinking (thinking : String)
  | tool_call (tool_use_id : String) (name : String) (input : Option String)
  | tool_result (tool_use_id : String) (content : String) (is_error : Bool)
  | file_change (path : String) (operation : String)
  | command_output (command : String) (stdout : String) (stderr : String) (exit_code : Int)
deriving DecidableEq

structure StoredItem where
  id : Nat
  created_at : Nat
  item : Item
deriving DecidableEq

inductive TurnStatus
  | active
  | completed
  | interrupted
  | error
deriving DecidableEq

structure Turn where
  id : Nat
  thread_id : Nat
  status : TurnStatus
  user_content : String
  steer_queue : List String
  items : List StoredItem
  process : Option Nat
  aborted : Bool
  created_at : Nat
  completed_at : Option Nat
  error : Option String
deriving DecidableEq

structure Thread where
  id : Nat
  created_at : Nat
  turns : List Turn
  cwd : String
  permission_mode : PermissionMode
  active_turn_id : Option Nat
  cliSessionId : Option String
  forkFrom : Option String
deriving DecidableEq

structure ConnectionState where
  initialized : Bool
  client_info : Option (String × String)
deriving DecidableEq

-- ─── server.ts: store, helpers ──────────────────────────────────────────────

structure ServerSt where
  threads : List (Nat × Thread)
  nextId : Nat
deriving DecidableEq

def ServerSt.empty : ServerSt := { threads := [], nextId := 0 }

def lookupThread (st : ServerSt) (id : Nat) : Option Thread :=
  (st.threads.find? (fun p => p.1 == id)).map (fun p => p.2)

/-- threads.set(id, th) for a key already present (JS Map.set replaces). -/
def setThread (st : ServerSt) (id : Nat) (th : Thread) : ServerSt :=
  { st with threads := st.threads.map (fun p => if p.1 == id then (id, th) else p) }

/-- threads.set(id, th) for a fresh key (JS Map.set appends in insertion order). -/
def addThread (st : ServerSt) (id : Nat) (th : Thread) : ServerSt :=
  { st with threads := st.threads ++ [(id, th)], nextId := st.nextId + 1 }

def createThread (id : Nat) (now : Nat) (cwd : String) (permMode : PermissionMode) : Thread :=
  { id := id, created_at := now, turns := [], cwd := cwd, permission_mode := permMode,
    active_turn_id := none, cliSessionId := none, forkFrom := none }

def createTurn (id : Nat) (threadId : Nat) (userContent : String) (now : Nat) : Turn :=
  { id := id, thread_id := threadId, status := .active, user_content := userContent,
    steer_queue := [], items := [], process := none, aborted := false,
    created_at := now, completed_at := none, error := none }

structure SerializedTurn where
  id : Nat
  thread_id : Nat
  status : TurnStatus
  user_content : String
  items : List StoredItem
  created_at : Nat
  completed_at : Option Nat
  error : Option String
deriving DecidableEq

def serializeTurn (turn : Turn) : SerializedTurn :=
  { id := turn.id, thread_id := turn.thread_id, status := turn.status,
    user_content := turn.user_content, items := turn.items,
    created_at := turn.created_at, completed_at := turn.completed_at, error := turn.error }

/-- getThread: Map lookup with a ThreadNotFound throw. The argument is
Option Nat because the handlers pass `p.thread_id` from an unvalidated cast. -/
def getThread (st : ServerSt) (id : Option Nat) : Except RpcError Thread :=
  match id.bind (lookupThread st) with
  | some t => .ok t
  | none => .error ⟨E.ThreadNotFound, "Thread not found"⟩

/-- Update the first turn in the list whose id matches (in the source the
found Turn object is mutated in place; ids are unique in practice). -/
def updateFirstTurn : List Turn → Nat → (Turn → Turn) → List Turn
  | [], _, _ => []
  | t :: ts, tid, f => if t.id == tid then f t :: ts else t :: updateFirstTurn ts tid f

-- ─── server.ts: method results ──────────────────────────────────────────────

structure Denial where
  tool_name : String
  tool_use_id : String
deriving DecidableEq

inductive MethodResult
  | initResult (serverName : String) (serverVersion : String)
  | threadStartR (thread_id : Nat) (created_at : Nat)
  | threadResumeR (thread_id : Nat) (created_at : Nat) (cwd : String)
      (permission_mode : PermissionMode) (cli_session_id : Option String)
      (turns : List SerializedTurn)
  | threadForkR (thread_id : Nat) (forked_from : Nat) (created_at : Nat)
  | turnStartR (turn_id : Nat)
  | turnSteerR (turn_id : Nat) (note : String)
  | turnInterruptR (turn_id : Nat) (status : TurnStatus)
  | approvalR (thread_id : Nat) (approved : Bool) (permission_mode : PermissionMode)
      (note : String)
  | modelListR (models : List String)
  | skillsListR (skills : List String)
  | appListR
deriving DecidableEq

def AVAILABLE_MODEL_IDS : List String :=
  ["claude-opus-4-6", "claude-sonnet-4-6", "claude-haiku-4-5"]

def BUILTIN_SKILL_NAMES : List String :=
  ["Read", "Write", "Edit", "Bash", "Glob", "Grep", "WebFetch", "WebSearch", "Task"]

-- ─── server.ts: notifications ───────────────────────────────────────────────

inductive Delta
  | text (text : String)
  | thinking (thinking : String)
deriving DecidableEq

inductive Notif
  | initialized (server : String)
  | turn_started (turn_id : Nat) (thread_id : Nat)
  | item_progress (turn_id : Nat) (delta : Delta)
  | item_created (turn_id : Nat) (item : StoredItem)
  | turn_permission_denied (turn_id : Nat) (thread_id : Nat) (denials : List Denial)
  | turn_completed (turn_id : Nat) (thread_id : Nat) (status : TurnStatus)
      (items_count : Nat) (completed_at : Nat)
  | turn_error (turn_id : Nat) (error : String)
deriving DecidableEq

-- ─── server.ts: method handlers ─────────────────────────────────────────────

/-- Leading ~ expansion in threadStart (cwd === "~" and cwd.startsWith("~/")). -/
def expandTilde (cwd : String) (home : String) : String :=
  if cwd == "~" then home
  else if cwd.startsWith "~/" then home ++ cwd.drop 1
  else cwd

def threadStart (st : ServerSt) (cwd : Option String) (permMode : Option PermissionMode)
    (procCwd : String) (home : String) (now : Nat) :
    ServerSt × Except RpcError MethodResult :=
  let c := expandTilde (cwd.getD procCwd) home
  let thread := createThread st.nextId now c (permMode.getD .default)
  (addThread st thread.id thread, .ok (.threadStartR thread.id thread.created_at))

def threadResume (st : ServerSt) (threadId : Option Nat) :
    ServerSt × Except RpcError MethodResult :=
  match getThread st threadId with
  | .error e => (st, .error e)
  | .ok thread =>
      (st, .ok (.threadResumeR thread.id thread.created_at thread.cwd
        thread.permission_mode thread.cliSessionId (thread.turns.map serializeTurn)))

def threadFork (st : ServerSt) (threadId : Option Nat) (now : Nat) :
    ServerSt × Except RpcError MethodResult :=
  match getThread st threadId with
  | .error e => (st, .error e)
  | .ok src =>
      match src.cliSessionId with
      | none => (st, .error ⟨E.InvalidParams, "Cannot fork a thread that has no turns yet."⟩)
      | some sid =>
          let forked := { createThread st.nextId now src.cwd src.permission_mode with
                          forkFrom := some sid }
          (addThread st forked.id forked,
           .ok (.threadForkR forked.id src.id forked.created_at))

def turnStart (st : ServerSt) (threadId : Option Nat) (content : String) (now : Nat) :
    ServerSt × Except RpcError MethodResult :=
  match getThread st threadId with
  | .error e => (st, .error e)
  | .ok thread =>
      if thread.active_turn_id.isSome then
        (st, .error ⟨E.TurnBusy, "Thread already has an active turn. Interrupt it first."⟩)
      else
        let turn := createTurn st.nextId thread.id content now
        let turn :=
          if turn.steer_queue.length > 0 then
            { turn with
              user_content :=
                String.intercalate "\n\n" turn.steer_queue ++ "\n\n" ++ turn.user_content,
              steer_queue := [] }
          else turn
        let thread :=
          { thread with turns := thread.turns ++ [turn], active_turn_id := some turn.id }
        ({ setThread st thread.id thread with nextId := st.nextId + 1 },
         .ok (.turnStartR turn.id))

def turnSteer (st : ServerSt) (threadId : Option Nat) (content : String) :
    ServerSt × Except RpcError MethodResult :=
  match getThread st threadId with
  | .error e => (st, .error e)
  | .ok thread =>
      match thread.active_turn_id with
      | some tid =>
          match thread.turns.find? (fun t => t.id == tid) with
          | some turn =>
              let turns' := updateFirstTurn thread.turns tid
                (fun t => { t with steer_queue := t.steer_queue ++ [content] })
              let thread' := { thread with turns := turns' }
              (setThread st thread.id thread',
               .ok (.turnSteerR turn.id "queued: will be prepended to the next user message"))
          | none => (st, .error ⟨E.InternalError, "TypeError"⟩)
      | none => (st, .error ⟨E.NoActiveTurn, "No active turn to steer."⟩)

def turnInterrupt (st : ServerSt) (threadId : Option Nat) (now : Nat) :
    ServerSt × Except RpcError MethodResult :=
  match getThread st threadId with
  | .error e => (st, .error e)
  | .ok thread =>
      match thread.active_turn_id with
      | none => (st, .error ⟨E.NoActiveTurn, "No active turn to interrupt."⟩)
      | some tid =>
          match thread.turns.find? (fun t => t.id == tid) with
          | none => (st, .error ⟨E.InternalError, "TypeError"⟩)
          | some _ =>
              let interruptTurn : Turn → Turn := fun t =>
                { t with aborted := true, status := .interrupted, completed_at := some now }
              let turns' := updateFirstTurn thread.turns tid interruptTurn
              let thread' := { thread with turns := turns', active_turn_id := none }
              (setThread st thread.id thread', .ok (.turnInterruptR tid .interrupted))

def approvalRespond (st : ServerSt) (threadId : Option Nat) (approved : Bool)
    (permMode : Option PermissionMode) : ServerSt × Except RpcError MethodResult :=
  match getThread st threadId with
  | .error e => (st, .error e)
  | .ok thread =>
      let thread' :=
        if approved then { thread with permission_mode := permMode.getD .acceptEdits }
        else thread
      (setThread st thread.id thread',
       .ok (.approvalR thread'.id approved thread'.permission_mode
         (if approved then "Permission mode updated. Retry your turn/start."
          else "Approval denied. Permission mode unchanged.")))

-- ─── server.ts: dispatcher and message entry point ──────────────────────────

structure RpcParams where
  client_name : Option String := none
  client_version : Option String := none
  cwd : Option String := none
  permission_mode : Option PermissionMode := none
  thread_id : Option Nat := none
  content : Option String := none
  model : Option String := none
  approved : Option Bool := none
deriving DecidableEq

inductive RpcIncoming
  | request (id : Int) (method : String) (params : RpcParams)
  | notification (method : String) (params : RpcParams)
deriving DecidableEq

inductive RpcResponse
  | success (id : Int) (result : MethodResult)
  | failure (id : Int) (code : Int) (message : String)
deriving DecidableEq

/-- Ambient facts the handlers read from the host: process.cwd(), os.homedir()
and the current clock value. -/
structure Env where
  procCwd : String
  home : String
  now : Nat
deriving DecidableEq

def dispatch (st : ServerSt) (conn : ConnectionState) (method : String) (p : RpcParams)
    (env : Env) : ServerSt × ConnectionState × List Notif × Except RpcError MethodResult :=
  if method == "initialize" then
    let info := some (p.client_name.getD "unknown", p.client_version.getD "0.0.0")
    let conn' := { conn with initialized := true, client_info := info }
    (st, conn', [Notif.initialized "claude-app-server"],
     .ok (.initResult "claude-app-server" "1.0.0"))
  else if method == "thread/start" then
    let (st', r) := threadStart st p.cwd p.permission_mode env.procCwd env.home env.now
    (st', conn, [], r)
  else if method == "thread/resume" then
    let (st', r) := threadResume st p.thread_id
    (st', conn, [], r)
  else if method == "thread/fork" then
    let (st', r) := threadFork st p.thread_id env.now
    (st', conn, [], r)
  else if method == "turn/start" then
    let (st', r) := turnStart st p.thread_id (p.content.getD "") env.now
    (st', conn, [], r)
  else if method == "turn/steer" then
    let (st', r) := turnSteer st p.thread_id (p.content.getD "")
    (st', conn, [], r)
  else if method == "turn/interrupt" then
    let (st', r) := turnInterrupt st p.thread_id env.now
    (st', conn, [], r)
  else if method == "approval/respond" then
    let (st', r) := approvalRespond st p.thread_id (p.approved.getD false) p.permission_mode
    (st', conn, [], r)
  else if method == "model/list" then
    (st, conn, [], .ok (.modelListR AVAILABLE_MODEL_IDS))
  else if method == "skills/list" then
    (st, conn, [], .ok (.skillsListR BUILTIN_SKILL_NAMES))
  else if method == "app/list" then
    (st, conn, [], .ok .appListR)
  else
    (st, conn, [], .error ⟨E.MethodNotFound, "Unknown method: " ++ method⟩)

def handleMessage (st : ServerSt) (conn : ConnectionState) (msg : RpcIncoming) (env : Env) :
    ServerSt × ConnectionState × List Notif × Option RpcResponse :=
  match msg with
  | .notification _ _ => (st, conn, [], none)
  | .request id method p =>
      if !conn.initialized && method != "initialize" then
        (st, conn, [],
         some (.failure id E.NotInitialized "Not initialized. Send initialize first."))
      else
        match dispatch st conn method p env with
        | (st', conn', ns, .ok r) => (st', conn', ns, some (.success id r))
        | (st', conn', ns, .error e) => (st', conn', ns, some (.failure id e.code e.message))

-- ─── server.ts: stream-json event types ─────────────────────────────────────

/-- The `content` field of a tool_result block: a flat value stringified by
String(raw ?? ""), or an array of fragments each read as c.text ?? "". -/
inductive RawContent
  | str (s : String)
  | arr (l : List (Option String))
deriving DecidableEq

inductive ContentBlock
  | text (text : String)
  | thinking (thinking : String)
  | tool_use (id : String) (name : String) (input : Option String)
  | tool_result (tool_use_id : String) (content : Option RawContent) (is_error : Option Bool)
deriving DecidableEq

structure ClaudeMessage where
  id : Option String
  content : Option (List ContentBlock)
deriving DecidableEq

inductive ClaudeStreamEvent
  | system (subtype : String) (session_id : Option String)
  | assistant (message : ClaudeMessage) (partialFlag : Option Bool)
  | user (message : Option ClaudeMessage)
  | result (subtype : String) (session_id : Option String) (error : Option String)
      (permission_denials : Option (List Denial))
deriving DecidableEq

-- ─── server.ts: processClaudeEvent ──────────────────────────────────────────

/-- JS Map get by string key. -/
def mapGet (m : List (String × String)) (k : String) : Option String :=
  (m.find? (fun p => p.1 == k)).map (fun p => p.2)

/-- JS Map set: replace the existing entry or append a new one. -/
def mapSet (m : List (String × String)) (k v : String) : List (String × String) :=
  if (m.find? (fun p => p.1 == k)).isSome then
    m.map (fun p => if p.1 == k then (k, v) else p)
  else m ++ [(k, v)]

/-- JS Map delete. -/
def mapDelete (m : List (String × String)) (k : String) : List (String × String) :=
  m.filter (fun p => p.1 != k)

/-- The mutable context of one runClaudeTurn call: the thread and turn being
mutated, the per-message delta trackers, the notifications sent so far, the
uuid supply and the clock. -/
structure RunSt where
  thread : Thread
  turn : Turn
  partialText : List (String × String)
  partialThink : List (String × String)
  notifs : List Notif
  nextId : Nat
  now : Nat
deriving DecidableEq

/-- One iteration of the for-loop over an assistant message's content blocks. -/
def processAssistantBlock (msgId : String) (partialB : Bool) (rs : RunSt) :
    ContentBlock → RunSt
  | .text t =>
      let prev := (mapGet rs.partialText msgId).getD ""
      let delta := t.drop prev.length
      let rs :=
        if delta != "" then
          { rs with notifs := rs.notifs ++ [.item_progress rs.turn.id (.text delta)],
                    partialText := mapSet rs.partialText msgId t }
        else rs
      if !partialB then
        let item : StoredItem := { id := rs.nextId, created_at := rs.now, item := .text t }
        { rs with nextId := rs.nextId + 1,
                  turn := { rs.turn with items := rs.turn.items ++ [item] },
                  notifs := rs.notifs ++ [.item_created rs.turn.id item],
                  partialText := mapDelete rs.partialText msgId }
      else rs
  | .thinking th =>
      if !partialB then
        let prev := (mapGet rs.partialThink msgId).getD ""
        let delta := th.drop prev.length
        let rs :=
          if delta != "" then
            { rs with notifs := rs.notifs ++ [.item_progress rs.turn.id (.thinking delta)] }
          else rs
        let item : StoredItem :=
          { id := rs.nextId, created_at := rs.now, item := .thinking th }
        { rs with nextId := rs.nextId + 1,
                  turn := { rs.turn with items := rs.turn.items ++ [item] },
                  notifs := rs.notifs ++ [.item_created rs.turn.id item],
                  partialThink := mapDelete rs.partialThink msgId }
      else rs
  | .tool_use bid bname binput =>
      if !partialB then
        let item : StoredItem :=
          { id := rs.nextId, created_at := rs.now, item := .tool_call bid bname binput }
        { rs with nextId := rs.nextId + 1,
                  turn := { rs.turn with items := rs.turn.items ++ [item] },
                  notifs := rs.notifs ++ [.item_created rs.turn.id item] }
      else rs
  | .tool_result _ _ _ => rs

/-- One iteration of the for-loop over a user message's content blocks. -/
def processUserBlock (rs : RunSt) : ContentBlock → RunSt
  | .tool_result tuid raw isErr =>
      let content :=
        match raw with
        | some (.arr l) => String.join (l.map (fun c => c.getD ""))
        | some (.str s) => s
        | none => ""
      let item : StoredItem :=
        { id := rs.nextId, created_at := rs.now,
          item := .tool_result tuid content (isErr.getD false) }
      { rs with nextId := rs.nextId + 1,
                turn := { rs.turn with items := rs.turn.items ++ [item] },
                notifs := rs.notifs ++ [.item_created rs.turn.id item] }
  | _ => rs

def processClaudeEvent (ev : ClaudeStreamEvent) (rs : RunSt) : RunSt :=
  match ev with
  | .system subtype sid =>
      if subtype == "init" then
        match sid with
        | some s =>
            if s != "" then { rs with thread := { rs.thread with cliSessionId := some s } }
            else rs
        | none => rs
      else rs
  | .assistant msg partialFlag =>
      let msgId := msg.id.getD "unknown"
      let partialB := partialFlag.getD false
      (msg.content.getD []).foldl (processAssistantBlock msgId partialB) rs
  | .user msg =>
      ((msg.bind (fun m => m.content)).getD []).foldl processUserBlock rs
  | .result subtype sid err denials =>
      let rs :=
        match sid with
        | some s =>
            if s != "" then { rs with thread := { rs.thread with cliSessionId := some s } }
            else rs
        | none => rs
      let rs :=
        if subtype == "error" then
          let turn' := { rs.turn with status := .error, error := some (err.getD "unknown error") }
          { rs with turn := turn' }
        else rs
      match denials with
      | some ds =>
          if ds.length > 0 then
            { rs with notifs :=
                rs.notifs ++ [.turn_permission_denied rs.turn.id rs.thread.id ds] }
          else rs
      | none => rs

-- ─── server.ts: runClaudeTurn ───────────────────────────────────────────────

/-- One run of the external claude process, as observed by runClaudeTurn:
its parsed stdout lines (none = a line that fails JSON.parse, skipped), the
exit code resolved by the exit/error promise (none = exited with a null code
or failed to spawn), the spawn failure if the error event fired, the captured
stderr, and the subprocess handle. -/
structure ProcRun where
  pid : Nat
  lines : List (Option ClaudeStreamEvent)
  exitCode : Option Int
  spawnError : Option String
  stderr : String
deriving DecidableEq

def spawnFailMsg (m : String) (stderrBuf : String) : String :=
  "Failed to spawn claude: " ++ m ++
    (if stderrBuf != "" then "\nstderr: " ++ stderrBuf.take 500 else "")

def exitFailMsg (code : Int) (stderrBuf : String) : String :=
  "claude exited with code " ++ toString code ++
    (if stderrBuf != "" then "\nstderr: " ++ stderrBuf.take 500 else "")

/-- exitCode !== null && exitCode !== 0 && exitCode !== 130. -/
def badExit : Option Int → Bool
  | some c => c != 0 && c != 130
  | none => false

structure RunOutcome where
  thread : Thread
  turn : Turn
  notifs : List Notif
  nextId : Nat
  thrown : Option String
deriving DecidableEq

/-- The for-await loop over the process's stdout lines: skip lines that fail
to parse and feed each event to processClaudeEvent, starting from empty delta
trackers and an empty notification log. -/
def runEvents (thread : Thread) (turn : Turn) (run : ProcRun) (nextId : Nat)
    (now : Nat) : RunSt :=
  (run.lines.filterMap id).foldl (fun s e => processClaudeEvent e s)
    { thread := thread, turn := turn, partialText := [], partialThink := [],
      notifs := [], nextId := nextId, now := now }

/-- The tail of runClaudeTurn after the stream ends: read the abort flag,
throw on a spawn failure or a bad integer exit code, otherwise stamp the
final status, clear the thread's active-turn pointer and emit turn/completed. -/
def resolveRun (rs : RunSt) (run : ProcRun) (now : Nat) : RunOutcome :=
  let aborted := rs.turn.aborted
  if !aborted && run.spawnError.isSome then
    { thread := rs.thread, turn := rs.turn, notifs := rs.notifs, nextId := rs.nextId,
      thrown := some (spawnFailMsg (run.spawnError.getD "") run.stderr) }
  else if !aborted && badExit run.exitCode then
    { thread := rs.thread, turn := rs.turn, notifs := rs.notifs, nextId := rs.nextId,
      thrown := some (exitFailMsg (run.exitCode.getD 0) run.stderr) }
  else
    let turn' := { rs.turn with
                   status := if aborted then .interrupted else .completed,
                   completed_at := some now }
    let thread' := { rs.thread with active_turn_id := none }
    { thread := thread', turn := turn',
      notifs := rs.notifs ++
        [.turn_completed turn'.id thread'.id turn'.status turn'.items.length now],
      nextId := rs.nextId, thrown := none }

/-- runClaudeTurn: attach the process handle, fold the event stream, then
resolve the final status from the abort flag, spawnError and exit code.
A thrown Error is `thrown = some msg`; the caller's catch handles it. -/
def runClaudeTurn (thread : Thread) (turn : Turn) (run : ProcRun) (nextId : Nat)
    (now : Nat) : RunOutcome :=
  let turn := { turn with process := some run.pid }
  resolveRun (runEvents thread turn run nextId now) run now

/-- The body scheduled by turn/start's setImmediate: send turn/started, run
the turn, and on a thrown error force status error, record the message,
clear the active-turn pointer and send turn/error. String(err) of a JS
Error object is "Error: " followed by its message. -/
def executeTurn (thread : Thread) (turn : Turn) (run : ProcRun) (nextId : Nat)
    (now : Nat) : Thread × Turn × List Notif :=
  let started : List Notif := [.turn_started turn.id thread.id]
  let r := runClaudeTurn thread turn run nextId now
  match r.thrown with
  | none => (r.thread, r.turn, started ++ r.notifs)
  | some e =>
      let turn' :=
        { r.turn with status := .error, error := some ("Error: " ++ e), completed_at := some now }
      let thread' := { r.thread with active_turn_id := none }
      (thread', turn', started ++ r.notifs ++ [.turn_error turn'.id ("Error: " ++ e)])

-- ─── server.ts: buildClaudeArgs ─────────────────────────────────────────────

def buildClaudeArgs (thread : Thread) (model : Option String) : List String :=
  let args := ["--print", "--output-format", "stream-json", "--verbose",
               "--include-partial-messages", "--permission-mode",
               thread.permission_mode.flag]
  let args := args ++ (match model with | some m => ["--model", m] | none => [])
  match thread.forkFrom, thread.cliSessionId with
  | some f, none => args ++ ["--resume", f, "--fork-session"]
  | none, none => args ++ ["--session-id", toString thread.id]
  | _, some sid => args ++ ["--resume", sid]

-- ─── The operation trace machine (for the store invariant) ──────────────────

/-- One externally triggered operation on the store: a dispatched request, the
processing of one stream event by a running turn, or a turn run's resolution
(the tail of runClaudeTurn plus the catch in turnStart's scheduler). Oracle
data (the event, the process run, the delta trackers) rides on the operation. -/
inductive Op
  | opThreadStart (cwd : Option String) (mode : Option PermissionMode)
  | opThreadResume (threadId : Nat)
  | opThreadFork (threadId : Nat)
  | opTurnStart (threadId : Nat) (content : String)
  | opTurnSteer (threadId : Nat) (content : String)
  | opTurnInterrupt (threadId : Nat)
  | opApproval (threadId : Nat) (approved : Bool) (mode : Option PermissionMode)
  | opEvent (threadId : Nat) (turnId : Nat) (pt : List (String × String))
      (pk : List (String × String)) (ev : ClaudeStreamEvent)
  | opResolve (threadId : Nat) (turnId : Nat) (run : ProcRun)
deriving DecidableEq

/-- Apply one operation to the store. The runner's direct object references
into the store are modelled by looking the thread and turn up by id and
writing the mutated copies back in place. -/
def step (st : ServerSt) : Op → ServerSt
  | .opThreadStart cwd mode => (threadStart st cwd mode "/" "/home" 0).1
  | .opThreadResume tid => (threadResume st (some tid)).1
  | .opThreadFork tid => (threadFork st (some tid) 0).1
  | .opTurnStart tid content => (turnStart st (some tid) content 0).1
  | .opTurnSteer tid content => (turnSteer st (some tid) content).1
  | .opTurnInterrupt tid => (turnInterrupt st (some tid) 0).1
  | .opApproval tid ap mode => (approvalRespond st (some tid) ap mode).1
  | .opEvent tid uid pt pk ev =>
      match lookupThread st tid with
      | none => st
      | some th =>
          match th.turns.find? (fun t => t.id == uid) with
          | none => st
          | some tu =>
              let rs : RunSt := { thread := th, turn := tu, partialText := pt,
                                  partialThink := pk, notifs := [],
                                  nextId := st.nextId, now := 0 }
              let rs' := processClaudeEvent ev rs
              let th' := { rs'.thread with
                           turns := updateFirstTurn rs'.thread.turns uid (fun _ => rs'.turn) }
              setThread st tid th'
  | .opResolve tid uid run =>
      match lookupThread st tid with
      | none => st
      | some th =>
          match th.turns.find? (fun t => t.id == uid) with
          | none => st
          | some tu =>
              let r := executeTurn th tu run st.nextId 0
              let th' := { r.1 with turns := updateFirstTurn r.1.turns uid (fun _ => r.2.1) }
              setThread st tid th'

def runOps (ops : List Op) : ServerSt := ops.foldl step ServerSt.empty

def turnIsActive (t : Turn) : Bool :=
  match t.status with
  | .active => true
  | _ => false

/-- The spec's per-thread invariant: active_turn_id is set iff exactly one
turn is active, and every active turn is the one it names; plus turn-id
uniqueness (uuid freshness). -/
def threadInv (th : Thread) : Prop :=
  (th.turns.map (fun t => t.id)).Nodup ∧
  match th.active_turn_id with
  | none => ∀ t ∈ th.turns, t.status ≠ .active
  | some i =>
      (∃ t ∈ th.turns, t.id = i ∧ t.status = .active) ∧
      ∀ t ∈ th.turns, t.status = .active → t.id = i

/-- Store-wide invariant: distinct thread keys, keys agree with thread ids,
all ids are below the uuid counter, and each thread satisfies threadInv. -/
def stInv (st : ServerSt) : Prop :=
  (st.threads.map (fun p => p.1)).Nodup ∧
  ∀ p ∈ st.threads, p.2.id = p.1 ∧ p.1 < st.nextId ∧ threadInv p.2 ∧
    ∀ t ∈ p.2.turns, t.id < st.nextId

def isErrorResultEvent : ClaudeStreamEvent → Prop
  | .result subtype _ _ _ => subtype = "error"
  | _ => False

/-- Guard excluding the two situations in which the source transiently breaks
the invariant: a result event with error subtype processed mid-run, and a
turn's resolution racing a newer turn of the same thread (a late resolution
of an interrupted turn after another turn-start was accepted). -/
def opOK (st : ServerSt) : Op → Prop
  | .opEvent _ _ _ _ ev => ¬ isErrorResultEvent ev
  | .opResolve tid uid _ =>
      ∀ th, lookupThread st tid = some th →
        th.active_turn_id = none ∨ th.active_turn_id = some uid
  | _ => True

/-- States reachable from the empty store by guarded operations. -/
inductive ReachOK : ServerSt → Prop
  | init : ReachOK ServerSt.empty
  | next (st : ServerSt) (op : Op) : ReachOK st → opOK st op → ReachOK (step st op)

-- ─── Shared helper lemmas ───────────────────────────────────────────────────

theorem strDropApp (p u : String) : (p ++ u).drop p.length = u := by
  apply String.ext
  rw [String.data_drop, String.data_append]
  have h : p.length = p.data.length := rfl
  rw [h, List.drop_left]

theorem strTakeLen (s : String) (n : Nat) : (s.take n).length ≤ n := by
  have h1 : (s.take n).length = (s.data.take n).length := by
    rw [String.take_eq]; rfl
  rw [h1, List.length_take]
  exact Nat.min_le_left _ _

theorem find?_append_none {α : Type} (p : α → Bool) (l₁ l₂ : List α)
    (h : l₁.find? p = none) : (l₁ ++ l₂).find? p = l₂.find? p := by
  induction l₁ with
  | nil => rfl
  | cons a l ih =>
      cases hpa : p a with
      | true => simp [List.find?_cons_of_pos _ hpa] at h
      | false =>
          rw [List.find?_cons_of_neg _ (by simp [hpa])] at h
          rw [List.cons_append, List.find?_cons_of_neg _ (by simp [hpa])]
          exact ih h

-- ─── C7: argument construction ──────────────────────────────────────────────

/-- C7: buildClaudeArgs is a pure function of thread state with this exact
precedence: fork-origin with no captured session id requests resume-and-fork
from the origin; no captured session id requests a fresh session keyed by the
thread id; otherwise it resumes the captured session id. The arguments always
include structured streaming output with partial messages, the thread's
permission mode, and the model override when supplied. -/
theorem buildClaudeArgs_spec (thread : Thread) (model : Option String) :
    (∀ f, thread.forkFrom = some f → thread.cliSessionId = none →
      buildClaudeArgs thread model =
        ["--print", "--output-format", "stream-json", "--verbose",
         "--include-partial-messages", "--permission-mode", thread.permission_mode.flag]
        ++ (match model with | some m => ["--model", m] | none => [])
        ++ ["--resume", f, "--fork-session"]) ∧
    (thread.forkFrom = none → thread.cliSessionId = none →
      buildClaudeArgs thread model =
        ["--print", "--output-format", "stream-json", "--verbose",
         "--include-partial-messages", "--permission-mode", thread.permission_mode.flag]
        ++ (match model with | some m => ["--model", m] | none => [])
        ++ ["--session-id", toString thread.id]) ∧
    (∀ sid, thread.cliSessionId = some sid →
      buildClaudeArgs thread model =
        ["--print", "--output-format", "stream-json", "--verbose",
         "--include-partial-messages", "--permission-mode", thread.permission_mode.flag]
        ++ (match model with | some m => ["--model", m] | none => [])
        ++ ["--resume", sid]) ∧
    "--output-format" ∈ buildClaudeArgs thread model ∧
    "stream-json" ∈ buildClaudeArgs thread model ∧
    "--include-partial-messages" ∈ buildClaudeArgs thread model ∧
    "--permission-mode" ∈ buildClaudeArgs thread model ∧
    thread.permission_mode.flag ∈ buildClaudeArgs thread model ∧
    (∀ m, model = some m →
      "--model" ∈ buildClaudeArgs thread model ∧ m ∈ buildClaudeArgs thread model) := by
  refine ⟨?_, ?_, ?_, ?_, ?_, ?_, ?_, ?_, ?_⟩
  · intro f hf hc
    simp [buildClaudeArgs, hf, hc]
  · intro hf hc
    simp [buildClaudeArgs, hf, hc]
  · intro sid hc
    cases hf : thread.forkFrom <;> simp [buildClaudeArgs, hf, hc]
  all_goals
    cases hf : thread.forkFrom <;> cases hc : thread.cliSessionId <;>
      cases hm : model <;> simp [buildClaudeArgs, hf, hc, hm]

def c7Thread : Thread :=
  { id := 3, created_at := 0, turns := [], cwd := "/w", permission_mode := .default,
    active_turn_id := none, cliSessionId := none, forkFrom := some "S" }

/-- C7 witness: the fork-precedence case evaluated at a concrete thread. -/
theorem buildClaudeArgs_spec_witness :
    buildClaudeArgs c7Thread (some "claude-haiku-4-5") =
      ["--print", "--output-format", "stream-json", "--verbose",
       "--include-partial-messages", "--permission-mode", "default",
       "--model", "claude-haiku-4-5", "--resume", "S", "--fork-session"] := by
  have h := (buildClaudeArgs_spec c7Thread (some "claude-haiku-4-5")).1 "S" rfl rfl
  simpa using h

-- ─── C9: serialization round-trip ───────────────────────────────────────────

/-- C9: thread/resume serializes every turn of the thread with serializeTurn,
which reproduces status, user input text and item list exactly and is
independent of the live process handle, the cancellation signal and the
steer queue (so the serialization never contains them). -/
theorem threadResume_serialization (st : ServerSt) (tid : Nat) (th : Thread)
    (h : lookupThread st tid = some th) :
    (threadResume st (some tid)).2 =
      .ok (.threadResumeR th.id th.created_at th.cwd th.permission_mode th.cliSessionId
        (th.turns.map serializeTurn)) ∧
    (∀ turn : Turn,
      (serializeTurn turn).status = turn.status ∧
      (serializeTurn turn).user_content = turn.user_content ∧
      (serializeTurn turn).items = turn.items) ∧
    (∀ (turn : Turn) (p : Option Nat) (q : List String) (a : Bool),
      serializeTurn { turn with process := p, steer_queue := q, aborted := a } =
        serializeTurn turn) := by
  refine ⟨?_, ?_, ?_⟩
  · simp [threadResume, getThread, h]
  · intro turn; exact ⟨rfl, rfl, rfl⟩
  · intro turn p q a; rfl

def c9Turn : Turn :=
  { createTurn 1 0 "hi" 0 with status := .completed, process := some 9, steer_queue := ["x"] }

def c9Thread : Thread := { createThread 0 0 "/w" .default with turns := [c9Turn] }

def c9State : ServerSt := { threads := [(0, c9Thread)], nextId := 2 }

/-- C9 witness: serialization of a concrete stored thread. -/
theorem threadResume_serialization_witness :
    (threadResume c9State (some 0)).2 =
      .ok (.threadResumeR 0 0 "/w" .default none
        [{ id := 1, thread_id := 0, status := .completed, user_content := "hi",
           items := [], created_at := 0, completed_at := none, error := none }]) :=
  ((threadResume_serialization c9State 0 c9Thread rfl).1).trans (by rfl)

-- ─── C10: initialization check precedes method lookup ───────────────────────

/-- C10: on an uninitialized connection every request whose method is not
"initialize" — any method string whatsoever, known or unknown — fails with
the not-initialized code, with the store, the connection and the notification
stream untouched: no handler runs and method lookup never happens. -/
theorem handleMessage_uninitialized (st : ServerSt) (conn : ConnectionState)
    (env : Env) (id : Int) (method : String) (p : RpcParams)
    (h1 : conn.initialized = false) (h2 : method ≠ "initialize") :
    handleMessage st conn (.request id method p) env =
      (st, conn, [],
       some (.failure id E.NotInitialized "Not initialized. Send initialize first.")) := by
  have hb : (method == "initialize") = false := beq_eq_false_iff_ne.2 h2
  simp [handleMessage, h1, bne, hb]

/-- C10 witness: an unknown method on an uninitialized connection yields
not-initialized, not method-not-found. -/
theorem handleMessage_uninitialized_witness :
    handleMessage ServerSt.empty ⟨false, none⟩ (.request 1 "no/such-method" {}) ⟨"/", "/h", 0⟩ =
      (ServerSt.empty, ⟨false, none⟩, [],
       some (.failure 1 E.NotInitialized "Not initialized. Send initialize first.")) :=
  handleMessage_uninitialized ServerSt.empty ⟨false, none⟩ ⟨"/", "/h", 0⟩ 1 "no/such-method" {}
    rfl (by decide)

-- ─── C5: turn-busy rejection leaves the store unchanged ─────────────────────

/-- C5: turn/start on a thread whose active_turn_id is set fails with the
turn-busy code and returns the store exactly as it was: no Turn is created,
the thread's turns list and active_turn_id are untouched. -/
theorem turnStart_busy (st : ServerSt) (tid : Nat) (th : Thread) (x : Nat)
    (content : String) (now : Nat)
    (h : lookupThread st tid = some th) (ha : th.active_turn_id = some x) :
    turnStart st (some tid) content now =
      (st, .error ⟨E.TurnBusy, "Thread already has an active turn. Interrupt it first."⟩) := by
  simp [turnStart, getThread, h, ha]

def c5State : ServerSt :=
  { threads := [(0, { createThread 0 0 "/w" .default with
      turns := [createTurn 1 0 "hi" 0], active_turn_id := some 1 })],
    nextId := 2 }

/-- C5 witness: a concrete busy thread rejects turn/start and keeps its state. -/
theorem turnStart_busy_witness :
    turnStart c5State (some 0) "again" 7 =
      (c5State,
       .error ⟨E.TurnBusy, "Thread already has an active turn. Interrupt it first."⟩) :=
  turnStart_busy c5State 0 _ 1 "again" 7 rfl rfl

-- ─── C8: thread/fork ────────────────────────────────────────────────────────

/-- C8: thread/fork fails with thread-not-found when the source is absent,
with invalid-params when the source has no captured external-session id, and
otherwise creates a new Thread inheriting the source's cwd and permission
mode, whose fork-origin records the source's session id, and returns the new
thread identity and the source identity. -/
theorem threadFork_spec (st : ServerSt) (tid : Nat) (now : Nat) :
    (lookupThread st tid = none →
      threadFork st (some tid) now = (st, .error ⟨E.ThreadNotFound, "Thread not found"⟩)) ∧
    (∀ th, lookupThread st tid = some th → th.cliSessionId = none →
      threadFork st (some tid) now =
        (st, .error ⟨E.InvalidParams, "Cannot fork a thread that has no turns yet."⟩)) ∧
    (∀ th sid, lookupThread st tid = some th → th.cliSessionId = some sid →
      (∀ p ∈ st.threads, p.1 ≠ st.nextId) →
      (threadFork st (some tid) now).2 = .ok (.threadForkR st.nextId th.id now) ∧
      ∃ forked, lookupThread (threadFork st (some tid) now).1 st.nextId = some forked ∧
        forked.cwd = th.cwd ∧ forked.permission_mode = th.permission_mode ∧
        forked.forkFrom = some sid ∧ forked.turns = [] ∧
        forked.cliSessionId = none ∧ forked.id = st.nextId) := by
  refine ⟨?_, ?_, ?_⟩
  · intro h
    simp [threadFork, getThread, h]
  · intro th h hc
    simp [threadFork, getThread, h, hc]
  · intro th sid h hc hfresh
    constructor
    · simp [threadFork, getThread, h, hc, createThread]
    · refine ⟨{ createThread st.nextId now th.cwd th.permission_mode with forkFrom := some sid },
        ?_, rfl, rfl, rfl, rfl, rfl, rfl⟩
      have hnone : st.threads.find? (fun p => p.1 == st.nextId) = none := by
        apply List.find?_eq_none.2
        intro x hx
        simpa using hfresh x hx
      simp only [threadFork, getThread, h, hc, Option.some_bind]
      simp only [lookupThread, addThread]
      rw [find?_append_none _ _ _ hnone]
      simp [createThread]

def c8SrcThread : Thread := { createThread 0 0 "/w" .acceptEdits with cliSessionId := some "sess-1" }

def c8State : ServerSt := { threads := [(0, c8SrcThread)], nextId := 1 }

/-- C8 witness: forking a concrete thread with a captured session id. -/
theorem threadFork_spec_witness :
    (threadFork c8State (some 0) 5).2 = .ok (.threadForkR 1 0 5) ∧
    lookupThread (threadFork c8State (some 0) 5).1 1 =
      some { createThread 1 5 "/w" .acceptEdits with forkFrom := some "sess-1" } := by
  refine ⟨((threadFork_spec c8State 0 5).2.2 c8SrcThread "sess-1" rfl rfl (by decide)).1, ?_⟩
  decide

-- ─── Frame lemmas for stream-event processing ───────────────────────────────

def isTerminalNotif : Notif → Bool
  | .turn_completed _ _ _ _ _ => true
  | .turn_error _ _ => true
  | _ => false

theorem pab_frame (msgId : String) (pb : Bool) (rs : RunSt) (b : ContentBlock) :
    (processAssistantBlock msgId pb rs b).turn.id = rs.turn.id ∧
    (processAssistantBlock msgId pb rs b).turn.aborted = rs.turn.aborted ∧
    (processAssistantBlock msgId pb rs b).turn.status = rs.turn.status ∧
    (processAssistantBlock msgId pb rs b).thread = rs.thread ∧
    (processAssistantBlock msgId pb rs b).notifs.countP isTerminalNotif =
      rs.notifs.countP isTerminalNotif := by
  cases b with
  | text t =>
      simp only [processAssistantBlock]
      split_ifs <;> simp [List.countP_append, List.countP_cons, isTerminalNotif]
  | thinking th =>
      simp only [processAssistantBlock]
      split_ifs <;> simp [List.countP_append, List.countP_cons, isTerminalNotif]
  | tool_use a c d =>
      simp only [processAssistantBlock]
      split_ifs <;> simp [List.countP_append, List.countP_cons, isTerminalNotif]
  | tool_result a c d => exact ⟨rfl, rfl, rfl, rfl, rfl⟩

theorem pub_frame (rs : RunSt) (b : ContentBlock) :
    (processUserBlock rs b).turn.id = rs.turn.id ∧
    (processUserBlock rs b).turn.aborted = rs.turn.aborted ∧
    (processUserBlock rs b).turn.status = rs.turn.status ∧
    (processUserBlock rs b).thread = rs.thread ∧
    (processUserBlock rs b).notifs.countP isTerminalNotif =
      rs.notifs.countP isTerminalNotif := by
  cases b <;>
    simp [processUserBlock, List.countP_append, List.countP_cons, isTerminalNotif]

theorem foldl_pab_frame (msgId : String) (pb : Bool) (l : List ContentBlock) :
    ∀ rs : RunSt,
    ((l.foldl (processAssistantBlock msgId pb) rs).turn.id = rs.turn.id ∧
     (l.foldl (processAssistantBlock msgId pb) rs).turn.aborted = rs.turn.aborted ∧
     (l.foldl (processAssistantBlock msgId pb) rs).turn.status = rs.turn.status ∧
     (l.foldl (processAssistantBlock msgId pb) rs).thread = rs.thread ∧
     (l.foldl (processAssistantBlock msgId pb) rs).notifs.countP isTerminalNotif =
       rs.notifs.countP isTerminalNotif) := by
  induction l with
  | nil => intro rs; exact ⟨rfl, rfl, rfl, rfl, rfl⟩
  | cons b l ih =>
      intro rs
      have h1 := pab_frame msgId pb rs b
      have h2 := ih (processAssistantBlock msgId pb rs b)
      simp only [List.foldl_cons]
      exact ⟨h2.1.trans h1.1, h2.2.1.trans h1.2.1, h2.2.2.1.trans h1.2.2.1,
             h2.2.2.2.1.trans h1.2.2.2.1, h2.2.2.2.2.trans h1.2.2.2.2⟩

theorem foldl_pub_frame (l : List ContentBlock) :
    ∀ rs : RunSt,
    ((l.foldl processUserBlock rs).turn.id = rs.turn.id ∧
     (l.foldl processUserBlock rs).turn.aborted = rs.turn.aborted ∧
     (l.foldl processUserBlock rs).turn.status = rs.turn.status ∧
     (l.foldl processUserBlock rs).thread = rs.thread ∧
     (l.foldl processUserBlock rs).notifs.countP isTerminalNotif =
       rs.notifs.countP isTerminalNotif) := by
  induction l with
  | nil => intro rs; exact ⟨rfl, rfl, rfl, rfl, rfl⟩
  | cons b l ih =>
      intro rs
      have h1 := pub_frame rs b
      have h2 := ih (processUserBlock rs b)
      simp only [List.foldl_cons]
      exact ⟨h2.1.trans h1.1, h2.2.1.trans h1.2.1, h2.2.2.1.trans h1.2.2.1,
             h2.2.2.2.1.trans h1.2.2.2.1, h2.2.2.2.2.trans h1.2.2.2.2⟩

/-- Event processing never changes the turn's id or abort flag, the thread's
turn list, active-turn pointer or id, and never emits a terminal notification. -/
theorem pce_frame (ev : ClaudeStreamEvent) (rs : RunSt) :
    (processClaudeEvent ev rs).turn.id = rs.turn.id ∧
    (processClaudeEvent ev rs).turn.aborted = rs.turn.aborted ∧
    (processClaudeEvent ev rs).thread.turns = rs.thread.turns ∧
    (processClaudeEvent ev rs).thread.active_turn_id = rs.thread.active_turn_id ∧
    (processClaudeEvent ev rs).thread.id = rs.thread.id ∧
    (processClaudeEvent ev rs).notifs.countP isTerminalNotif =
      rs.notifs.countP isTerminalNotif := by
  cases ev with
  | system subtype sid =>
      cases sid with
      | none =>
          simp only [processClaudeEvent]
          split_ifs <;> exact ⟨rfl, rfl, rfl, rfl, rfl, rfl⟩
      | some s =>
          simp only [processClaudeEvent]
          split_ifs <;> exact ⟨rfl, rfl, rfl, rfl, rfl, rfl⟩
  | assistant msg pf =>
      have h := foldl_pab_frame (msg.id.getD "unknown") (pf.getD false) (msg.content.getD []) rs
      simp only [processClaudeEvent]
      exact ⟨h.1, h.2.1, by rw [h.2.2.2.1], by rw [h.2.2.2.1], by rw [h.2.2.2.1], h.2.2.2.2⟩
  | user msg =>
      have h := foldl_pub_frame (((msg.bind (fun m => m.content)).getD [])) rs
      simp only [processClaudeEvent]
      exact ⟨h.1, h.2.1, by rw [h.2.2.2.1], by rw [h.2.2.2.1], by rw [h.2.2.2.1], h.2.2.2.2⟩
  | result subtype sid err denials =>
      cases sid <;> cases denials <;>
        simp only [processClaudeEvent] <;>
        split_ifs <;>
        refine ⟨rfl, rfl, rfl, rfl, rfl, ?_⟩ <;>
        simp [List.countP_append, List.countP_cons, isTerminalNotif]

/-- Processing an event whose subtype is not an error result also preserves
the turn's status. -/
theorem pce_status (ev : ClaudeStreamEvent) (rs : RunSt) (h : ¬ isErrorResultEvent ev) :
    (processClaudeEvent ev rs).turn.status = rs.turn.status := by
  cases ev with
  | system subtype sid =>
      cases sid <;> simp only [processClaudeEvent] <;> split_ifs <;> rfl
  | assistant msg pf =>
      exact (foldl_pab_frame (msg.id.getD "unknown") (pf.getD false) (msg.content.getD []) rs).2.2.1
  | user msg =>
      exact (foldl_pub_frame (((msg.bind (fun m => m.content)).getD [])) rs).2.2.1
  | result subtype sid err denials =>
      have hs : ¬ subtype = "error" := h
      have hb : (subtype == "error") = false := beq_eq_false_iff_ne.2 hs
      cases sid <;> cases denials <;>
        simp only [processClaudeEvent, hb, if_false, Bool.false_eq_true] <;>
        split_ifs <;> rfl

theorem foldl_pce_frame (evs : List ClaudeStreamEvent) :
    ∀ rs : RunSt,
    ((evs.foldl (fun s e => processClaudeEvent e s) rs).turn.id = rs.turn.id ∧
     (evs.foldl (fun s e => processClaudeEvent e s) rs).turn.aborted = rs.turn.aborted ∧
     (evs.foldl (fun s e => processClaudeEvent e s) rs).thread.turns = rs.thread.turns ∧
     (evs.foldl (fun s e => processClaudeEvent e s) rs).thread.active_turn_id =
       rs.thread.active_turn_id ∧
     (evs.foldl (fun s e => processClaudeEvent e s) rs).thread.id = rs.thread.id ∧
     (evs.foldl (fun s e => processClaudeEvent e s) rs).notifs.countP isTerminalNotif =
       rs.notifs.countP isTerminalNotif) := by
  induction evs with
  | nil => intro rs; exact ⟨rfl, rfl, rfl, rfl, rfl, rfl⟩
  | cons e l ih =>
      intro rs
      have h1 := pce_frame e rs
      have h2 := ih (processClaudeEvent e rs)
      simp only [List.foldl_cons]
      exact ⟨h2.1.trans h1.1, h2.2.1.trans h1.2.1, h2.2.2.1.trans h1.2.2.1,
             h2.2.2.2.1.trans h1.2.2.2.1, h2.2.2.2.2.1.trans h1.2.2.2.2.1,
             h2.2.2.2.2.2.trans h1.2.2.2.2.2⟩

/-- The event loop never changes the turn's id or abort flag, the thread's
turn list, pointer or id, and emits no terminal notification. -/
theorem runEvents_frame (thread : Thread) (turn : Turn) (run : ProcRun) (n now : Nat) :
    (runEvents thread turn run n now).turn.id = turn.id ∧
    (runEvents thread turn run n now).turn.aborted = turn.aborted ∧
    (runEvents thread turn run n now).thread.turns = thread.turns ∧
    (runEvents thread turn run n now).thread.active_turn_id = thread.active_turn_id ∧
    (runEvents thread turn run n now).thread.id = thread.id ∧
    (runEvents thread turn run n now).notifs.countP isTerminalNotif = 0 := by
  have h := foldl_pce_frame (run.lines.filterMap id)
    { thread := thread, turn := turn, partialText := [], partialThink := [],
      notifs := [], nextId := n, now := now }
  exact ⟨h.1, h.2.1, h.2.2.1, h.2.2.2.1, h.2.2.2.2.1, by simpa using h.2.2.2.2.2⟩

/-- Case analysis of the resolution tail: the four outcomes determined by the
abort flag, the spawn failure and the exit code. -/
theorem resolveRun_spec (rs : RunSt) (run : ProcRun) (now : Nat) :
    (rs.turn.aborted = true →
      resolveRun rs run now =
        { thread := { rs.thread with active_turn_id := none },
          turn := { rs.turn with status := .interrupted, completed_at := some now },
          notifs := rs.notifs ++
            [.turn_completed rs.turn.id rs.thread.id .interrupted rs.turn.items.length now],
          nextId := rs.nextId, thrown := none }) ∧
    (rs.turn.aborted = false → run.spawnError.isSome = true →
      resolveRun rs run now =
        { thread := rs.thread, turn := rs.turn, notifs := rs.notifs, nextId := rs.nextId,
          thrown := some (spawnFailMsg (run.spawnError.getD "") run.stderr) }) ∧
    (rs.turn.aborted = false → run.spawnError.isSome = false →
      badExit run.exitCode = true →
      resolveRun rs run now =
        { thread := rs.thread, turn := rs.turn, notifs := rs.notifs, nextId := rs.nextId,
          thrown := some (exitFailMsg (run.exitCode.getD 0) run.stderr) }) ∧
    (rs.turn.aborted = false → run.spawnError.isSome = false →
      badExit run.exitCode = false →
      resolveRun rs run now =
        { thread := { rs.thread with active_turn_id := none },
          turn := { rs.turn with status := .completed, completed_at := some now },
          notifs := rs.notifs ++
            [.turn_completed rs.turn.id rs.thread.id .completed rs.turn.items.length now],
          nextId := rs.nextId, thrown := none }) := by
  refine ⟨?_, ?_, ?_, ?_⟩
  · intro h1; simp [resolveRun, h1]
  · intro h1 h2; simp [resolveRun, h1, h2]
  · intro h1 h2 h3; simp [resolveRun, h1, h2, h3]
  · intro h1 h2 h3; simp [resolveRun, h1, h2, h3]

-- ─── C3: final status resolution ────────────────────────────────────────────

def containsStr (needle hay : String) : Prop := ∃ u v, hay = u ++ (needle ++ v)

/-- C3 (amended): after a run, the outcome is: interrupted whenever the
cancellation signal had fired when the exit was observed, regardless of exit
code; a thrown error (forced to status error with the message recorded by the
scheduler's catch) when the spawn failed or the exit code is an integer other
than 0 or 130, the text carrying the spawn message and at most the first 500
characters of stderr; completed for exit code 0, exit code 130, or a process
that terminated with no exit code at all (no spawn failure). -/
theorem runClaudeTurn_status_resolution (thread : Thread) (turn : Turn) (run : ProcRun)
    (n now : Nat) :
    (turn.aborted = true →
      (runClaudeTurn thread turn run n now).thrown = none ∧
      (runClaudeTurn thread turn run n now).turn.status = .interrupted) ∧
    (∀ m, turn.aborted = false → run.spawnError = some m →
      (runClaudeTurn thread turn run n now).thrown = some (spawnFailMsg m run.stderr) ∧
      containsStr m (spawnFailMsg m run.stderr) ∧
      (executeTurn thread turn run n now).2.1.status = .error ∧
      (executeTurn thread turn run n now).2.1.error =
        some ("Error: " ++ spawnFailMsg m run.stderr)) ∧
    (∀ c, turn.aborted = false → run.spawnError = none → run.exitCode = some c →
      c ≠ 0 → c ≠ 130 →
      (runClaudeTurn thread turn run n now).thrown = some (exitFailMsg c run.stderr) ∧
      (executeTurn thread turn run n now).2.1.status = .error ∧
      (executeTurn thread turn run n now).2.1.error =
        some ("Error: " ++ exitFailMsg c run.stderr)) ∧
    (turn.aborted = false → run.spawnError = none →
      (run.exitCode = some 0 ∨ run.exitCode = some 130 ∨ run.exitCode = none) →
      (runClaudeTurn thread turn run n now).thrown = none ∧
      (runClaudeTurn thread turn run n now).turn.status = .completed) ∧
    (run.stderr.take 500).length ≤ 500 := by
  have hfold := runEvents_frame thread { turn with process := some run.pid } run n now
  have hspec :=
    resolveRun_spec (runEvents thread { turn with process := some run.pid } run n now) run now
  have hrc : runClaudeTurn thread turn run n now =
      resolveRun (runEvents thread { turn with process := some run.pid } run n now) run now :=
    rfl
  refine ⟨?_, ?_, ?_, ?_, strTakeLen run.stderr 500⟩
  · intro h
    have hab : (runEvents thread { turn with process := some run.pid } run n now).turn.aborted
        = true := by rw [hfold.2.1]; exact h
    have hR := hrc.trans (hspec.1 hab)
    exact ⟨by rw [hR], by rw [hR]⟩
  · intro m h hsp
    have hab : (runEvents thread { turn with process := some run.pid } run n now).turn.aborted
        = false := by rw [hfold.2.1]; exact h
    have hs : run.spawnError.isSome = true := by rw [hsp]; rfl
    have hR := hrc.trans (hspec.2.1 hab hs)
    have hthrown : (runClaudeTurn thread turn run n now).thrown =
        some (spawnFailMsg m run.stderr) := by rw [hR]; simp [hsp]
    refine ⟨hthrown, ?_, ?_, ?_⟩
    · refine ⟨"Failed to spawn claude: ",
        (if run.stderr != "" then "\nstderr: " ++ run.stderr.take 500 else ""), ?_⟩
      simp only [spawnFailMsg]
      exact String.append_assoc _ _ _
    · simp [executeTurn, hthrown]
    · simp [executeTurn, hthrown]
  · intro c h hsp hex hc0 hc130
    have hab : (runEvents thread { turn with process := some run.pid } run n now).turn.aborted
        = false := by rw [hfold.2.1]; exact h
    have hs : run.spawnError.isSome = false := by rw [hsp]; rfl
    have hbe : badExit run.exitCode = true := by
      rw [hex]; simp [badExit, bne_iff_ne, hc0, hc130]
    have hR := hrc.trans (hspec.2.2.1 hab hs hbe)
    have hthrown : (runClaudeTurn thread turn run n now).thrown =
        some (exitFailMsg c run.stderr) := by rw [hR]; simp [hex]
    refine ⟨hthrown, ?_, ?_⟩
    · simp [executeTurn, hthrown]
    · simp [executeTurn, hthrown]
  · intro h hsp hex
    have hab : (runEvents thread { turn with process := some run.pid } run n now).turn.aborted
        = false := by rw [hfold.2.1]; exact h
    have hs : run.spawnError.isSome = false := by rw [hsp]; rfl
    have hbe : badExit run.exitCode = false := by
      rcases hex with h0 | h130 | hnull <;> simp_all [badExit]
    have hR := hrc.trans (hspec.2.2.2 hab hs hbe)
    exact ⟨by rw [hR], by rw [hR]⟩

def c3Thread : Thread := createThread 0 0 "/w" .default

def c3Turn : Turn := createTurn 1 0 "hi" 0

def c3Run : ProcRun := { pid := 9, lines := [], exitCode := none, spawnError := none, stderr := "" }

/-- C3 counterexample: a process that terminates without an exit code (killed
by a signal), with no spawn failure and no cancellation, is resolved
completed, although the claim allows completed only for exit code 0 or the
SIGINT code. -/
theorem runClaudeTurn_null_exit_counterexample :
    c3Turn.aborted = false ∧ c3Run.spawnError = none ∧ c3Run.exitCode = none ∧
    (runClaudeTurn c3Thread c3Turn c3Run 2 3).thrown = none ∧
    (runClaudeTurn c3Thread c3Turn c3Run 2 3).turn.status = .completed := by
  decide

def c3RunErr : ProcRun :=
  { pid := 9, lines := [], exitCode := some 2, spawnError := none, stderr := "boom" }

/-- C3 witness: a non-zero, non-130 exit code at a concrete run throws and the
scheduler records the error. -/
theorem runClaudeTurn_status_resolution_witness :
    (runClaudeTurn c3Thread c3Turn c3RunErr 2 3).thrown = some (exitFailMsg 2 "boom") ∧
    (executeTurn c3Thread c3Turn c3RunErr 2 3).2.1.status = .error ∧
    (executeTurn c3Thread c3Turn c3RunErr 2 3).2.1.error =
      some ("Error: " ++ exitFailMsg 2 "boom") :=
  (runClaudeTurn_status_resolution c3Thread c3Turn c3RunErr 2 3).2.2.1 2 rfl rfl rfl
    (by decide) (by decide)

-- ─── C4: exactly one terminal notification ──────────────────────────────────

theorem runClaudeTurn_shape (thread : Thread) (turn : Turn) (run : ProcRun)
    (n now : Nat) :
    ((runClaudeTurn thread turn run n now).thrown = none →
      (∃ l a b c d e, (runClaudeTurn thread turn run n now).notifs =
          l ++ [.turn_completed a b c d e] ∧ l.countP isTerminalNotif = 0) ∧
      ((runClaudeTurn thread turn run n now).turn.status = .interrupted ∨
       (runClaudeTurn thread turn run n now).turn.status = .completed)) ∧
    (∀ msg, (runClaudeTurn thread turn run n now).thrown = some msg →
      (runClaudeTurn thread turn run n now).notifs.countP isTerminalNotif = 0) := by
  have hfold := runEvents_frame thread { turn with process := some run.pid } run n now
  have hc := hfold.2.2.2.2.2
  have hspec :=
    resolveRun_spec (runEvents thread { turn with process := some run.pid } run n now) run now
  have hrc : runClaudeTurn thread turn run n now =
      resolveRun (runEvents thread { turn with process := some run.pid } run n now) run now :=
    rfl
  cases hab : (runEvents thread { turn with process := some run.pid } run n now).turn.aborted with
  | true =>
      have hR := hrc.trans (hspec.1 hab)
      rw [hR]
      exact ⟨fun _ => ⟨⟨_, _, _, _, _, _, rfl, hc⟩, Or.inl rfl⟩,
             fun msg hmsg => by simp at hmsg⟩
  | false =>
      cases hsp : run.spawnError.isSome with
      | true =>
          have hR := hrc.trans (hspec.2.1 hab hsp)
          rw [hR]
          exact ⟨fun hn => by simp at hn, fun msg _ => hc⟩
      | false =>
          cases hbe : badExit run.exitCode with
          | true =>
              have hR := hrc.trans (hspec.2.2.1 hab hsp hbe)
              rw [hR]
              exact ⟨fun hn => by simp at hn, fun msg _ => hc⟩
          | false =>
              have hR := hrc.trans (hspec.2.2.2 hab hsp hbe)
              rw [hR]
              exact ⟨fun _ => ⟨⟨_, _, _, _, _, _, rfl, hc⟩, Or.inr rfl⟩,
                     fun msg hmsg => by simp at hmsg⟩

/-- C4: for every scheduled turn run, the notification stream emitted for the
turn contains exactly one terminal notification, it is the last notification,
it is turn/completed when the runner resolves and turn/error when it throws,
and the turn is never left with status active afterwards. -/
theorem turn_terminal_notification (thread : Thread) (turn : Turn) (run : ProcRun)
    (n now : Nat) :
    ((executeTurn thread turn run n now).2.2).countP isTerminalNotif = 1 ∧
    (∃ x, ((executeTurn thread turn run n now).2.2).getLast? = some x ∧
      isTerminalNotif x = true) ∧
    (executeTurn thread turn run n now).2.1.status ≠ .active ∧
    ((runClaudeTurn thread turn run n now).thrown = none →
      ∃ a b c d e, ((executeTurn thread turn run n now).2.2).getLast? =
        some (.turn_completed a b c d e)) ∧
    (∀ msg, (runClaudeTurn thread turn run n now).thrown = some msg →
      ∃ a b, ((executeTurn thread turn run n now).2.2).getLast? =
        some (.turn_error a b)) := by
  have hs := runClaudeTurn_shape thread turn run n now
  cases ht : (runClaudeTurn thread turn run n now).thrown with
  | none =>
      obtain ⟨⟨l, a, b, c, d, e, hnl, hcl⟩, hstat⟩ := hs.1 ht
      have hns : (executeTurn thread turn run n now).2.2 =
          [Notif.turn_started turn.id thread.id] ++
            (runClaudeTurn thread turn run n now).notifs := by
        simp [executeTurn, ht]
      rw [hns, hnl]
      have hassoc : [Notif.turn_started turn.id thread.id] ++
          (l ++ [Notif.turn_completed a b c d e]) =
          ([Notif.turn_started turn.id thread.id] ++ l) ++
            [Notif.turn_completed a b c d e] := by
        rw [List.append_assoc]
      refine ⟨?_, ?_, ?_, ?_, ?_⟩
      · simp [List.countP_append, List.countP_cons, isTerminalNotif, hcl]
      · refine ⟨Notif.turn_completed a b c d e, ?_, rfl⟩
        rw [hassoc]
        exact List.getLast?_concat _
      · have : (executeTurn thread turn run n now).2.1 =
            (runClaudeTurn thread turn run n now).turn := by
          simp [executeTurn, ht]
        rw [this]
        rcases hstat with h | h <;> rw [h] <;> intro hx <;> exact absurd hx (by simp)
      · intro _
        refine ⟨a, b, c, d, e, ?_⟩
        rw [hassoc]
        exact List.getLast?_concat _
      · intro msg hmsg
        exact absurd hmsg (by simp)
  | some msg =>
      have hcl := hs.2 msg ht
      have hns : (executeTurn thread turn run n now).2.2 =
          [Notif.turn_started turn.id thread.id] ++
            ((runClaudeTurn thread turn run n now).notifs ++
              [Notif.turn_error (runClaudeTurn thread turn run n now).turn.id
                ("Error: " ++ msg)]) := by
        simp [executeTurn, ht]
      rw [hns]
      have hassoc : [Notif.turn_started turn.id thread.id] ++
          ((runClaudeTurn thread turn run n now).notifs ++
            [Notif.turn_error (runClaudeTurn thread turn run n now).turn.id
              ("Error: " ++ msg)]) =
          ([Notif.turn_started turn.id thread.id] ++
            (runClaudeTurn thread turn run n now).notifs) ++
            [Notif.turn_error (runClaudeTurn thread turn run n now).turn.id
              ("Error: " ++ msg)] := by
        rw [List.append_assoc]
      refine ⟨?_, ?_, ?_, ?_, ?_⟩
      · simp [List.countP_append, List.countP_cons, isTerminalNotif, hcl]
      · refine ⟨Notif.turn_error (runClaudeTurn thread turn run n now).turn.id
          ("Error: " ++ msg), ?_, rfl⟩
        rw [hassoc]
        exact List.getLast?_concat _
      · have : (executeTurn thread turn run n now).2.1.status = .error := by
          simp [executeTurn, ht]
        rw [this]
        intro hx
        exact absurd hx (by simp)
      · intro hn
        exact absurd hn (by simp)
      · intro msg' _
        refine ⟨(runClaudeTurn thread turn run n now).turn.id, "Error: " ++ msg, ?_⟩
        rw [hassoc]
        exact List.getLast?_concat _

def c4Run : ProcRun :=
  { pid := 9, lines := [], exitCode := some 2, spawnError := none, stderr := "" }

/-- C4 witness: at a concrete failing run the stream carries exactly one
terminal notification and it is turn/error. -/
theorem turn_terminal_notification_witness :
    ((executeTurn c3Thread c3Turn c4Run 2 3).2.2).countP isTerminalNotif = 1 ∧
    ∃ a b, ((executeTurn c3Thread c3Turn c4Run 2 3).2.2).getLast? =
      some (Notif.turn_error a b) :=
  ⟨(turn_terminal_notification c3Thread c3Turn c4Run 2 3).1,
   (turn_terminal_notification c3Thread c3Turn c4Run 2 3).2.2.2.2
     (exitFailMsg 2 "") (by decide)⟩

-- ─── C6: text delta idempotence ─────────────────────────────────────────────

/-- A progressively-growing sequence: the later value extends the earlier. -/
def strGrows (a b : String) : Prop := ∃ u, b = a ++ u

/-- The event stream for one message id: partial assistant text events for
every cumulative value but the last, then the final (non-partial) event. -/
def mkTextEvents (mid : String) : List String → List ClaudeStreamEvent
  | [] => []
  | [t] => [.assistant ⟨some mid, some [.text t]⟩ (some false)]
  | t :: rest => .assistant ⟨some mid, some [.text t]⟩ (some true) :: mkTextEvents mid rest

/-- The text deltas carried by item/progress notifications, in order. -/
def textDeltas (l : List Notif) : List String :=
  l.filterMap (fun nt =>
    match nt with
    | .item_progress _ (.text s) => some s
    | _ => none)

def concatAll : List String → String
  | [] => ""
  | s :: l => s ++ concatAll l

theorem strEmptyApp (s : String) : "" ++ s = s := by
  apply String.ext
  rw [String.data_append]
  rfl

theorem strAppEmpty (s : String) : s ++ "" = s := by
  apply String.ext
  rw [String.data_append]
  exact List.append_nil _

theorem strDropZero (s : String) : s.drop 0 = s := by
  apply String.ext
  rw [String.data_drop]
  rfl

theorem strGrows_trans {a b c : String} (h1 : strGrows a b) (h2 : strGrows b c) :
    strGrows a c := by
  obtain ⟨u, hu⟩ := h1
  obtain ⟨v, hv⟩ := h2
  exact ⟨u ++ v, by rw [hv, hu, String.append_assoc]⟩

theorem chain_grows_getLast :
    ∀ (l : List String) (t final : String), List.Chain' strGrows (t :: l) →
      (t :: l).getLast? = some final → strGrows t final := by
  intro l
  induction l with
  | nil =>
      intro t final _ hlast
      have : t = final := by simpa using hlast
      exact this ▸ ⟨"", (strAppEmpty t).symm⟩
  | cons r l' ih =>
      intro t final hchain hlast
      have h1 : strGrows t r := (List.chain'_cons.1 hchain).1
      have h2 := ih r final (List.chain'_cons.1 hchain).2 (by simpa using hlast)
      exact strGrows_trans h1 h2

theorem mapGet_map_replace (k v : String) :
    ∀ m : List (String × String), (m.find? (fun p => p.1 == k)).isSome = true →
    mapGet (m.map (fun p => if p.1 == k then (k, v) else p)) k = some v := by
  intro m
  induction m with
  | nil => intro h; simp at h
  | cons p l ih =>
      intro h
      cases hp : (p.1 == k) with
      | true =>
          simp only [List.map_cons, hp, if_true]
          simp [mapGet, List.find?_cons]
      | false =>
          have h' : (l.find? (fun q => q.1 == k)).isSome = true := by
            simp only [List.find?_cons, hp] at h
            exact h
          have hrec := ih h'
          simp only [List.map_cons, hp, Bool.false_eq_true, if_false]
          simp only [mapGet] at hrec
          simp only [mapGet, List.find?_cons, hp]
          exact hrec

theorem mapGet_append_new (k v : String) (m : List (String × String))
    (h : m.find? (fun p => p.1 == k) = none) :
    mapGet (m ++ [(k, v)]) k = some v := by
  simp only [mapGet]
  rw [find?_append_none _ _ _ h]
  simp [List.find?_cons]

theorem mapGet_mapSet (m : List (String × String)) (k v : String) :
    mapGet (mapSet m k v) k = some v := by
  by_cases h : (m.find? (fun p => p.1 == k)).isSome = true
  · rw [mapSet, if_pos h]
    exact mapGet_map_replace k v m h
  · rw [mapSet, if_neg h]
    exact mapGet_append_new k v m (Option.not_isSome_iff_eq_none.1 (by simpa using h))

theorem pce_text_partial_spec (mid t : String) (rs : RunSt) (prev : String)
    (hinv : (mapGet rs.partialText mid).getD "" = prev) :
    (t.drop prev.length ≠ "" →
      processClaudeEvent (.assistant ⟨some mid, some [.text t]⟩ (some true)) rs =
        { rs with
          notifs := rs.notifs ++ [.item_progress rs.turn.id (.text (t.drop prev.length))],
          partialText := mapSet rs.partialText mid t }) ∧
    (t.drop prev.length = "" →
      processClaudeEvent (.assistant ⟨some mid, some [.text t]⟩ (some true)) rs = rs) := by
  constructor
  · intro h
    simp [processClaudeEvent, processAssistantBlock, hinv, bne_iff_ne, h]
  · intro h
    simp [processClaudeEvent, processAssistantBlock, hinv, h]

theorem pce_text_final_notifs (mid t : String) (rs : RunSt) (prev : String)
    (hinv : (mapGet rs.partialText mid).getD "" = prev) :
    (processClaudeEvent (.assistant ⟨some mid, some [.text t]⟩ (some false)) rs).notifs =
      rs.notifs ++
        (if t.drop prev.length ≠ "" then
          [Notif.item_progress rs.turn.id (.text (t.drop prev.length)),
           Notif.item_created rs.turn.id ⟨rs.nextId, rs.now, Item.text t⟩]
        else [Notif.item_created rs.turn.id ⟨rs.nextId, rs.now, Item.text t⟩]) := by
  by_cases h : t.drop prev.length = ""
  · simp [processClaudeEvent, processAssistantBlock, hinv, h]
  · simp [processClaudeEvent, processAssistantBlock, hinv, bne_iff_ne, h]

theorem textRun_aux (mid : String) :
    ∀ (ts : List String) (rs : RunSt) (prev final : String),
    ts.getLast? = some final →
    List.Chain' strGrows (prev :: ts) →
    (mapGet rs.partialText mid).getD "" = prev →
    ∃ l, ((mkTextEvents mid ts).foldl (fun s e => processClaudeEvent e s) rs).notifs =
        rs.notifs ++ l ∧
      concatAll (textDeltas l) = final.drop prev.length := by
  intro ts
  induction ts with
  | nil => intro rs prev final h _ _; simp at h
  | cons t rest ih =>
      intro rs prev final hlast hchain hinv
      have hg : strGrows prev t := (List.chain'_cons.1 hchain).1
      obtain ⟨u, hu⟩ := hg
      have hdelta : t.drop prev.length = u := by rw [hu]; exact strDropApp prev u
      cases rest with
      | nil =>
          have hft : t = final := by simpa using hlast
          have hn := pce_text_final_notifs mid t rs prev hinv
          by_cases hne : u = ""
          · refine ⟨[Notif.item_created rs.turn.id ⟨rs.nextId, rs.now, Item.text t⟩], ?_, ?_⟩
            · simpa [mkTextEvents, hdelta, hne] using hn
            · simp [textDeltas, concatAll, ← hft, hdelta, hne]
          · refine ⟨[Notif.item_progress rs.turn.id (.text u),
                     Notif.item_created rs.turn.id ⟨rs.nextId, rs.now, Item.text t⟩], ?_, ?_⟩
            · simpa [mkTextEvents, hdelta, hne] using hn
            · simp [textDeltas, concatAll, ← hft, hdelta, strAppEmpty]
      | cons r rest' =>
          have hspec := pce_text_partial_spec mid t rs prev hinv
          have hchain' : List.Chain' strGrows (t :: r :: rest') := (List.chain'_cons.1 hchain).2
          have hlast' : (r :: rest').getLast? = some final := by simpa using hlast
          have hgrow : strGrows t final :=
            chain_grows_getLast _ t final hchain' (by simpa using hlast)
          obtain ⟨w, hw⟩ := hgrow
          by_cases hne : u = ""
          · have ht : t = prev := by rw [hu, hne, strAppEmpty]
            have heq := hspec.2 (by rw [hdelta, hne])
            obtain ⟨l, hl, hcat⟩ := ih rs t final hlast' hchain' (ht ▸ hinv)
            refine ⟨l, ?_, ?_⟩
            · have hfold : (mkTextEvents mid (t :: r :: rest')).foldl
                  (fun s e => processClaudeEvent e s) rs =
                  (mkTextEvents mid (r :: rest')).foldl
                    (fun s e => processClaudeEvent e s) rs := by
                simp only [mkTextEvents, List.foldl_cons]
                rw [heq]
              rw [hfold]; exact hl
            · rw [hcat, ht]
          · have heq := hspec.1 (by rw [hdelta]; exact hne)
            rw [hdelta] at heq
            obtain ⟨l, hl, hcat⟩ := ih
              { rs with notifs := rs.notifs ++ [Notif.item_progress rs.turn.id (.text u)],
                        partialText := mapSet rs.partialText mid t }
              t final hlast' hchain' (by simp [mapGet_mapSet])
            refine ⟨Notif.item_progress rs.turn.id (Delta.text u) :: l, ?_, ?_⟩
            · have hfold : (mkTextEvents mid (t :: r :: rest')).foldl
                  (fun s e => processClaudeEvent e s) rs =
                  (mkTextEvents mid (r :: rest')).foldl (fun s e => processClaudeEvent e s)
                    { rs with
                      notifs := rs.notifs ++ [Notif.item_progress rs.turn.id (.text u)],
                      partialText := mapSet rs.partialText mid t } := by
                simp only [mkTextEvents, List.foldl_cons]
                rw [heq]
              rw [hfold, hl]
              simp
            · have hcons : textDeltas (Notif.item_progress rs.turn.id (Delta.text u) :: l) =
                  u :: textDeltas l := by simp [textDeltas]
              rw [hcons]
              simp only [concatAll]
              rw [hcat]
              have h1 : final.drop t.length = w := by rw [hw]; exact strDropApp t w
              have h2 : (prev ++ (u ++ w)).drop prev.length = u ++ w := strDropApp _ _
              have h3 : final = prev ++ (u ++ w) := by rw [hw, hu, String.append_assoc]
              rw [h1, h3, h2]

/-- C6: for any progressively-growing sequence of partial text values followed
by a final value for the same message id, processed from a state with no
delta tracking for that id, the concatenation of all emitted item/progress
text deltas equals the final text exactly once — no duplicated and no dropped
characters, however many partial events preceded the final one. -/
theorem text_delta_concat (mid : String) (ts : List String) (rs : RunSt) (final : String)
    (hlast : ts.getLast? = some final) (hchain : List.Chain' strGrows ts)
    (h0 : mapGet rs.partialText mid = none) :
    ∃ l, ((mkTextEvents mid ts).foldl (fun s e => processClaudeEvent e s) rs).notifs =
        rs.notifs ++ l ∧
      concatAll (textDeltas l) = final := by
  have hchain0 : List.Chain' strGrows ("" :: ts) := by
    cases ts with
    | nil => simp at hlast
    | cons h tl => exact List.chain'_cons.2 ⟨⟨h, (strEmptyApp h).symm⟩, hchain⟩
  have hinv : (mapGet rs.partialText mid).getD "" = "" := by rw [h0]; rfl
  obtain ⟨l, hl, hcat⟩ := textRun_aux mid ts rs "" final hlast hchain0 hinv
  refine ⟨l, hl, ?_⟩
  rw [hcat]
  have hz : ("" : String).length = 0 := rfl
  rw [hz]
  exact strDropZero final

def c6Rs : RunSt :=
  { thread := c3Thread, turn := c3Turn, partialText := [], partialThink := [],
    notifs := [], nextId := 5, now := 7 }

/-- C6 witness: two growing partials then a final value at concrete inputs. -/
theorem text_delta_concat_witness :
    concatAll (textDeltas (((mkTextEvents "m" ["he", "hel", "hello"]).foldl
      (fun s e => processClaudeEvent e s) c6Rs).notifs)) = "hello" := by
  obtain ⟨l, hl, hc⟩ := text_delta_concat "m" ["he", "hel", "hello"] c6Rs "hello" rfl
    (by
      refine List.chain'_cons.2 ⟨⟨"l", by decide⟩, ?_⟩
      exact List.chain'_pair.2 ⟨"lo", by decide⟩)
    rfl
  rw [hl]
  simpa using hc

-- ─── C1: steer text is never prepended ──────────────────────────────────────

def c1Ops : List Op :=
  [.opThreadStart none none,
   .opTurnStart 0 "first",
   .opTurnSteer 0 "focus on tests",
   .opResolve 0 1 { pid := 9, lines := [], exitCode := some 0, spawnError := none, stderr := "" },
   .opTurnStart 0 "second"]

/-- C1: evaluation of the code at the failing input. A turn is started,
steered with "focus on tests" while active, and completed; the next
turn/start creates its Turn with a fresh empty steer queue and checks that
queue instead of the previous turn's, so the new turn's input is exactly
"second" — the queued steer text is not prepended — and the previous turn's
steer queue is never emptied. -/
theorem turnStart_steer_dropped :
    (lookupThread (runOps c1Ops) 0).map
      (fun th => (th.turns.map (fun t => t.user_content),
                  th.turns.map (fun t => t.steer_queue))) =
      some (["first", "second"], [["focus on tests"], []]) := by
  decide

-- ─── C2: store invariant machinery ──────────────────────────────────────────

/-- Two turns agreeing on id and status. -/
def idst (a b : Turn) : Prop := b.id = a.id ∧ b.status = a.status

theorem forall2_idst_refl : ∀ l : List Turn, List.Forall₂ idst l l := by
  intro l
  induction l with
  | nil => exact List.Forall₂.nil
  | cons t ts ih => exact List.Forall₂.cons ⟨rfl, rfl⟩ ih

theorem uft_rel (uid : Nat) (f : Turn → Turn)
    (hf : ∀ t, (f t).id = t.id ∧ (f t).status = t.status) :
    ∀ l : List Turn, List.Forall₂ idst l (updateFirstTurn l uid f) := by
  intro l
  induction l with
  | nil => exact List.Forall₂.nil
  | cons t ts ih =>
      simp only [updateFirstTurn]
      split_ifs with h
      · exact List.Forall₂.cons ⟨(hf t).1, (hf t).2⟩ (forall2_idst_refl ts)
      · exact List.Forall₂.cons ⟨rfl, rfl⟩ ih

theorem uft_const_rel' (uid : Nat) (g tu : Turn)
    (hid : g.id = tu.id) (hst : g.status = tu.status) :
    ∀ l : List Turn, l.find? (fun t => t.id == uid) = some tu →
      List.Forall₂ idst l (updateFirstTurn l uid (fun _ => g)) := by
  intro l
  induction l with
  | nil => intro h; simp at h
  | cons t ts ih =>
      intro hfind
      simp only [updateFirstTurn]
      cases hb : (t.id == uid) with
      | true =>
          have htu : t = tu := by
            simp only [List.find?_cons, hb] at hfind
            exact Option.some.inj hfind
          rw [if_pos rfl]
          exact List.Forall₂.cons ⟨htu ▸ hid, htu ▸ hst⟩ (forall2_idst_refl ts)
      | false =>
          have hfind' : ts.find? (fun t => t.id == uid) = some tu := by
            simp only [List.find?_cons, hb] at hfind
            exact hfind
          rw [if_neg (by simp)]
          exact List.Forall₂.cons ⟨rfl, rfl⟩ (ih hfind')

theorem rel_map_id {l l' : List Turn} (h : List.Forall₂ idst l l') :
    l'.map (fun t => t.id) = l.map (fun t => t.id) := by
  induction h with
  | nil => rfl
  | cons hab _ ih => simp [ih, hab.1]

theorem rel_mem_bwd {l l' : List Turn} (h : List.Forall₂ idst l l') :
    ∀ t' ∈ l', ∃ t ∈ l, t'.id = t.id ∧ t'.status = t.status := by
  induction h with
  | nil => intro t' h'; exact absurd h' (List.not_mem_nil t')
  | cons hab _ ih =>
      intro t' h'
      rcases List.mem_cons.1 h' with h' | h'
      · exact ⟨_, List.mem_cons_self _ _, h' ▸ hab.1, h' ▸ hab.2⟩
      · obtain ⟨t, ht, h1, h2⟩ := ih t' h'
        exact ⟨t, List.mem_cons_of_mem _ ht, h1, h2⟩

theorem rel_mem_fwd {l l' : List Turn} (h : List.Forall₂ idst l l') :
    ∀ t ∈ l, ∃ t' ∈ l', t'.id = t.id ∧ t'.status = t.status := by
  induction h with
  | nil => intro t h'; exact absurd h' (List.not_mem_nil t)
  | cons hab _ ih =>
      intro t h'
      rcases List.mem_cons.1 h' with h' | h'
      · exact ⟨_, List.mem_cons_self _ _, h' ▸ hab.1, h' ▸ hab.2⟩
      · obtain ⟨t', ht', h1, h2⟩ := ih t h'
        exact ⟨t', List.mem_cons_of_mem _ ht', h1, h2⟩

theorem threadInv_transport (th th' : Thread)
    (hrel : List.Forall₂ idst th.turns th'.turns)
    (hptr : th'.active_turn_id = th.active_turn_id)
    (hinv : threadInv th) : threadInv th' := by
  obtain ⟨hnodup, hrest⟩ := hinv
  refine ⟨by rw [rel_map_id hrel]; exact hnodup, ?_⟩
  rw [hptr]
  cases hp : th.active_turn_id with
  | none =>
      rw [hp] at hrest
      intro t' ht' hact
      obtain ⟨t, ht, h1, h2⟩ := rel_mem_bwd hrel t' ht'
      exact hrest t ht (h2 ▸ hact)
  | some i =>
      rw [hp] at hrest
      obtain ⟨⟨t, ht, hid, hact⟩, huniq⟩ := hrest
      constructor
      · obtain ⟨t', ht', h1, h2⟩ := rel_mem_fwd hrel t ht
        exact ⟨t', ht', h1.trans hid, h2.trans hact⟩
      · intro t' ht' hact'
        obtain ⟨t, ht, h1, h2⟩ := rel_mem_bwd hrel t' ht'
        exact h1.trans (huniq t ht (h2 ▸ hact'))

theorem uft_mem (uid : Nat) (f : Turn → Turn) :
    ∀ (l : List Turn) (t' : Turn), t' ∈ updateFirstTurn l uid f →
      t' ∈ l ∨ ∃ t ∈ l, t' = f t := by
  intro l
  induction l with
  | nil => intro t' h; exact absurd h (List.not_mem_nil t')
  | cons t ts ih =>
      intro t' h
      simp only [updateFirstTurn] at h
      split_ifs at h with hb
      · rcases List.mem_cons.1 h with h | h
        · exact Or.inr ⟨t, List.mem_cons_self _ _, h⟩
        · exact Or.inl (List.mem_cons_of_mem _ h)
      · rcases List.mem_cons.1 h with h | h
        · exact Or.inl (h ▸ List.mem_cons_self _ _)
        · rcases ih t' h with h | ⟨t0, ht0, he⟩
          · exact Or.inl (List.mem_cons_of_mem _ h)
          · exact Or.inr ⟨t0, List.mem_cons_of_mem _ ht0, he⟩

theorem uft_kills_active (uid : Nat) (f : Turn → Turn)
    (hf : ∀ t, (f t).status ≠ .active) :
    ∀ l : List Turn, (l.map (fun t => t.id)).Nodup →
      (∀ t ∈ l, t.status = .active → t.id = uid) →
      ∀ t' ∈ updateFirstTurn l uid f, t'.status ≠ .active := by
  intro l
  induction l with
  | nil => intro _ _ t' h; exact absurd h (List.not_mem_nil t')
  | cons t ts ih =>
      intro hnodup hact t' ht'
      simp only [updateFirstTurn] at ht'
      split_ifs at ht' with hb
      · rcases List.mem_cons.1 ht' with h | h
        · exact h ▸ hf t
        · intro hx
          have hid : t'.id = uid := hact t' (List.mem_cons_of_mem _ h) hx
          have htid : t.id = uid := by simpa using hb
          have : t.id ∈ ts.map (fun t => t.id) :=
            htid ▸ hid ▸ List.mem_map_of_mem _ h
          exact (List.nodup_cons.1 (by simpa using hnodup)).1 this
      · rcases List.mem_cons.1 ht' with h | h
        · intro hx
          have : t.id = uid := hact t (List.mem_cons_self _ _) (h ▸ hx)
          exact absurd this (by simpa using hb)
        · exact ih (List.nodup_cons.1 (by simpa using hnodup)).2
            (fun u hu => hact u (List.mem_cons_of_mem _ hu)) t' h

theorem uft_const_map_id (uid : Nat) (g : Turn) (hg : g.id = uid) :
    ∀ l : List Turn,
      (updateFirstTurn l uid (fun _ => g)).map (fun t => t.id) =
        l.map (fun t => t.id) := by
  intro l
  induction l with
  | nil => rfl
  | cons t ts ih =>
      simp only [updateFirstTurn]
      split_ifs with hb
      · have : t.id = uid := by simpa using hb
        simp [hg, this]
      · simp [ih]

theorem turnIsActive_iff (t : Turn) : turnIsActive t = true ↔ t.status = .active := by
  cases h : t.status <;> simp [turnIsActive, h]

theorem countP_active_eq_one (i : Nat) :
    ∀ l : List Turn, (l.map (fun t => t.id)).Nodup →
      (∃ t ∈ l, t.id = i ∧ t.status = .active) →
      (∀ t ∈ l, t.status = .active → t.id = i) →
      l.countP turnIsActive = 1 := by
  intro l
  induction l with
  | nil => intro _ hex _; obtain ⟨t, ht, _⟩ := hex; exact absurd ht (List.not_mem_nil t)
  | cons t ts ih =>
      intro hnodup hex huniq
      by_cases hact : t.status = .active
      · have hzero : ts.countP turnIsActive = 0 := by
          rw [List.countP_eq_zero]
          intro u hu hup
          have huact : u.status = .active := (turnIsActive_iff u).1 hup
          have h1 : u.id = i := huniq u (List.mem_cons_of_mem _ hu) huact
          have h2 : t.id = i := huniq t (List.mem_cons_self _ _) hact
          have : t.id ∈ ts.map (fun t => t.id) :=
            h2 ▸ h1 ▸ List.mem_map_of_mem _ hu
          exact (List.nodup_cons.1 (by simpa using hnodup)).1 this
        simp [List.countP_cons, turnIsActive, hact, hzero]
      · have hcount : (t :: ts).countP turnIsActive = ts.countP turnIsActive := by
          have : turnIsActive t = false := by
            cases hs : t.status <;> simp_all [turnIsActive]
          simp [List.countP_cons, this]
        rw [hcount]
        obtain ⟨u, hu, hui, hua⟩ := hex
        rcases List.mem_cons.1 hu with h | h
        · exact absurd (h ▸ hua) hact
        · exact ih (List.nodup_cons.1 (by simpa using hnodup)).2 ⟨u, h, hui, hua⟩
            (fun v hv => huniq v (List.mem_cons_of_mem _ hv))

theorem countP_active_eq_zero (l : List Turn)
    (h : ∀ t ∈ l, t.status ≠ .active) : l.countP turnIsActive = 0 := by
  rw [List.countP_eq_zero]
  intro u hu hup
  exact h u hu ((turnIsActive_iff u).1 hup)

theorem mem_key_unique :
    ∀ l : List (Nat × Thread), (l.map (fun p => p.1)).Nodup →
      ∀ p q : Nat × Thread, p ∈ l → q ∈ l → p.1 = q.1 → p = q := by
  intro l
  induction l with
  | nil => intro _ p _ hp; exact absurd hp (List.not_mem_nil p)
  | cons a l' ih =>
      intro hnodup p q hp hq hkey
      rw [List.map_cons] at hnodup
      have hnd := List.nodup_cons.1 hnodup
      rcases List.mem_cons.1 hp with hp | hp <;> rcases List.mem_cons.1 hq with hq | hq
      · exact hp.trans hq.symm
      · exfalso
        apply hnd.1
        have hq1 : q.1 ∈ l'.map (fun p => p.1) := List.mem_map_of_mem _ hq
        rw [← hkey, hp] at hq1
        exact hq1
      · exfalso
        apply hnd.1
        have hp1 : p.1 ∈ l'.map (fun p => p.1) := List.mem_map_of_mem _ hp
        rw [hkey, hq] at hp1
        exact hp1
      · exact ih hnd.2 p q hp hq hkey

theorem lookupThread_entry {st : ServerSt} {tid : Nat} {th : Thread}
    (h : lookupThread st tid = some th) :
    (tid, th) ∈ st.threads := by
  simp only [lookupThread] at h
  obtain ⟨e, he, hsnd⟩ : ∃ e, st.threads.find? (fun p => p.1 == tid) = some e ∧ e.2 = th := by
    cases hf : st.threads.find? (fun p => p.1 == tid) with
    | none => rw [hf] at h; simp at h
    | some e => rw [hf] at h; exact ⟨e, rfl, by simpa using h⟩
  have hkey : e.1 = tid := by simpa using List.find?_some he
  have hmem : e ∈ st.threads := List.mem_of_find?_eq_some he
  have : e = (tid, th) := by
    cases e
    simp_all
  exact this ▸ hmem

theorem stInv_setThread' (st : ServerSt) (tid : Nat) (th th' : Thread) (N : Nat)
    (hinv : stInv st) (hlk : lookupThread st tid = some th)
    (hid : th'.id = th.id) (hthinv : threadInv th')
    (hbound : ∀ t ∈ th'.turns, t.id < N) (hN : st.nextId ≤ N) :
    stInv { setThread st tid th' with nextId := N } := by
  obtain ⟨hnodup, hmem⟩ := hinv
  have hentry : (tid, th) ∈ st.threads := lookupThread_entry hlk
  have hthfacts := hmem (tid, th) hentry
  constructor
  · have hkeys : ((setThread st tid th').threads.map (fun p => p.1)) =
        st.threads.map (fun p => p.1) := by
      simp only [setThread, List.map_map]
      apply List.map_congr_left
      intro p _
      by_cases hp : (p.1 == tid) = true
      · have hpt : p.1 = tid := by simpa using hp
        simp [Function.comp, hp, hpt]
      · simp [Function.comp, hp]
    simpa [hkeys] using hnodup
  · intro q hq
    simp only [setThread, List.mem_map] at hq
    obtain ⟨p, hp, hq⟩ := hq
    by_cases hpk : (p.1 == tid) = true
    · rw [if_pos hpk] at hq
      have hpeq : p = (tid, th) :=
        mem_key_unique st.threads hnodup p (tid, th) hp hentry (by simpa using hpk)
      subst hq
      refine ⟨?_, ?_, hthinv, ?_⟩
      · simp only
        rw [hid]
        have : th.id = tid := by
          have := (hmem (tid, th) hentry).1
          simpa using this
        simpa using this
      · exact lt_of_lt_of_le hthfacts.2.1 hN
      · intro t ht
        exact hbound t ht
    · rw [if_neg hpk] at hq
      subst hq
      have hf := hmem p hp
      exact ⟨hf.1, lt_of_lt_of_le hf.2.1 hN, hf.2.2.1,
        fun t ht => lt_of_lt_of_le (hf.2.2.2 t ht) hN⟩

theorem stInv_addThread (st : ServerSt) (th' : Thread)
    (hinv : stInv st) (hid : th'.id = st.nextId) (hthinv : threadInv th')
    (hturns : th'.turns = []) :
    stInv (addThread st st.nextId th') := by
  obtain ⟨hnodup, hmem⟩ := hinv
  constructor
  · simp only [addThread, List.map_append]
    rw [List.nodup_append]
    refine ⟨hnodup, List.nodup_singleton _, ?_⟩
    intro x hx hx'
    have hxv : x = st.nextId := by simpa using hx'
    simp only [List.mem_map] at hx
    obtain ⟨p, hp, hpx⟩ := hx
    have := (hmem p hp).2.1
    rw [hpx, hxv] at this
    exact lt_irrefl _ this
  · intro q hq
    simp only [addThread, List.mem_append] at hq
    rcases hq with hq | hq
    · have hf := hmem q hq
      exact ⟨hf.1, Nat.lt_succ_of_lt hf.2.1, hf.2.2.1,
        fun t ht => Nat.lt_succ_of_lt (hf.2.2.2 t ht)⟩
    · have : q = (st.nextId, th') := by simpa using hq
      subst this
      refine ⟨by simpa using hid, Nat.lt_succ_self _, hthinv, ?_⟩
      intro t ht
      rw [hturns] at ht
      exact absurd ht (List.not_mem_nil t)

theorem getThread_ok {st : ServerSt} {tid : Nat} {th : Thread} :
    getThread st (some tid) = .ok th ↔ lookupThread st tid = some th := by
  cases h : lookupThread st tid <;> simp [getThread, h]

theorem executeTurn_frame (thread : Thread) (turn : Turn) (run : ProcRun) (n now : Nat) :
    (executeTurn thread turn run n now).1.turns = thread.turns ∧
    (executeTurn thread turn run n now).1.active_turn_id = none ∧
    (executeTurn thread turn run n now).1.id = thread.id ∧
    (executeTurn thread turn run n now).2.1.id = turn.id ∧
    (executeTurn thread turn run n now).2.1.status ≠ .active := by
  have hfold := runEvents_frame thread { turn with process := some run.pid } run n now
  have hspec :=
    resolveRun_spec (runEvents thread { turn with process := some run.pid } run n now) run now
  have hrc : runClaudeTurn thread turn run n now =
      resolveRun (runEvents thread { turn with process := some run.pid } run n now) run now :=
    rfl
  cases hab : (runEvents thread { turn with process := some run.pid } run n now).turn.aborted with
  | true =>
      have hR := hrc.trans (hspec.1 hab)
      refine ⟨?_, ?_, ?_, ?_, ?_⟩ <;>
        simp [executeTurn, hR, hfold.1, hfold.2.2.1, hfold.2.2.2.1, hfold.2.2.2.2.1]
  | false =>
      cases hsp : run.spawnError.isSome with
      | true =>
          have hR := hrc.trans (hspec.2.1 hab hsp)
          refine ⟨?_, ?_, ?_, ?_, ?_⟩ <;>
            simp [executeTurn, hR, hfold.1, hfold.2.2.1, hfold.2.2.2.1, hfold.2.2.2.2.1]
      | false =>
          cases hbe : badExit run.exitCode with
          | true =>
              have hR := hrc.trans (hspec.2.2.1 hab hsp hbe)
              refine ⟨?_, ?_, ?_, ?_, ?_⟩ <;>
                simp [executeTurn, hR, hfold.1, hfold.2.2.1, hfold.2.2.2.1, hfold.2.2.2.2.1]
          | false =>
              have hR := hrc.trans (hspec.2.2.2 hab hsp hbe)
              refine ⟨?_, ?_, ?_, ?_, ?_⟩ <;>
                simp [executeTurn, hR, hfold.1, hfold.2.2.1, hfold.2.2.2.1, hfold.2.2.2.2.1]

theorem threadInv_mk_empty (th : Thread) (h1 : th.turns = []) (h2 : th.active_turn_id = none) :
    threadInv th := by
  refine ⟨by simp [h1], ?_⟩
  rw [h2]
  intro t ht
  rw [h1] at ht
  exact absurd ht (List.not_mem_nil t)

theorem threadInv_startTurn (thread : Thread) (newTurn : Turn) (N : Nat)
    (hinv : threadInv thread) (hact : thread.active_turn_id = none)
    (hbound : ∀ t ∈ thread.turns, t.id < N) (hid : newTurn.id = N)
    (hst : newTurn.status = .active) :
    threadInv
      { thread with turns := thread.turns ++ [newTurn], active_turn_id := some newTurn.id } := by
  obtain ⟨hnodup, hrest⟩ := hinv
  rw [hact] at hrest
  constructor
  · simp only [List.map_append]
    rw [List.nodup_append]
    refine ⟨hnodup, by simp, ?_⟩
    intro x hx hx'
    have hxv : x = newTurn.id := by simpa using hx'
    simp only [List.mem_map] at hx
    obtain ⟨t, ht, hteq⟩ := hx
    have := hbound t ht
    rw [hteq, hxv, hid] at this
    exact lt_irrefl _ this
  · refine ⟨⟨newTurn, List.mem_append_right _ (by simp), rfl, hst⟩, ?_⟩
    intro t ht htact
    rcases List.mem_append.1 ht with h | h
    · exact absurd htact (hrest t h)
    · have heq : t = newTurn := by simpa using h
      rw [heq]

theorem threadInv_clearActive (thread : Thread) (turns' : List Turn)
    (hmap : turns'.map (fun t => t.id) = thread.turns.map (fun t => t.id))
    (hnoact : ∀ t ∈ turns', t.status ≠ .active)
    (hinv : threadInv thread) :
    threadInv { thread with turns := turns', active_turn_id := none } := by
  refine ⟨?_, ?_⟩
  · show (turns'.map (fun t => t.id)).Nodup
    rw [hmap]
    exact hinv.1
  · intro t ht
    exact hnoact t ht

theorem uft_map_id (uid : Nat) (f : Turn → Turn) (hf : ∀ t, (f t).id = t.id) :
    ∀ l : List Turn,
      (updateFirstTurn l uid f).map (fun t => t.id) = l.map (fun t => t.id) := by
  intro l
  induction l with
  | nil => rfl
  | cons t ts ih =>
      simp only [updateFirstTurn]
      split_ifs with hb
      · simp [hf]
      · simp [ih]

theorem threadInv_of_none (th : Thread) (hptr : th.active_turn_id = none)
    (hnodup : (th.turns.map (fun t => t.id)).Nodup)
    (hnoact : ∀ t ∈ th.turns, t.status ≠ .active) : threadInv th := by
  refine ⟨hnodup, ?_⟩
  rw [hptr]
  exact hnoact

theorem stInv_step (st : ServerSt) (op : Op) (hinv : stInv st) (hok : opOK st op) :
    stInv (step st op) := by
  cases op with
  | opThreadStart cwd mode =>
      simp only [step, threadStart]
      exact stInv_addThread st _ hinv rfl (threadInv_mk_empty _ rfl rfl) rfl
  | opThreadResume tid =>
      have h : (threadResume st (some tid)).1 = st := by
        cases h : getThread st (some tid) <;> simp [threadResume, h]
      simp only [step]
      rw [h]
      exact hinv
  | opThreadFork tid =>
      simp only [step]
      cases hg : getThread st (some tid) with
      | error e => simp only [threadFork, hg]; exact hinv
      | ok src =>
          cases hcli : src.cliSessionId with
          | none => simp only [threadFork, hg, hcli]; exact hinv
          | some sid =>
              simp only [threadFork, hg, hcli]
              exact stInv_addThread st _ hinv rfl (threadInv_mk_empty _ rfl rfl) rfl
  | opTurnStart tid content =>
      simp only [step]
      cases hg : getThread st (some tid) with
      | error e => simp only [turnStart, hg]; exact hinv
      | ok thread =>
          have hlk : lookupThread st tid = some thread := getThread_ok.1 hg
          have hentry := lookupThread_entry hlk
          have hfacts := hinv.2 (tid, thread) hentry
          cases hact : thread.active_turn_id with
          | some x =>
              simp only [turnStart, hg, hact, Option.isSome_some, if_true]
              exact hinv
          | none =>
              simp only [turnStart, hg, hact, Option.isSome_none, Bool.false_eq_true,
                if_false, createTurn, List.length_nil, gt_iff_lt, lt_self_iff_false]
              have hthid : thread.id = tid := hfacts.1
              rw [hthid]
              refine stInv_setThread' st tid thread _ (st.nextId + 1) hinv hlk ?_ ?_ ?_
                (Nat.le_succ _)
              · exact hthid.symm
              · exact threadInv_startTurn thread _ st.nextId hfacts.2.2.1 hact
                  hfacts.2.2.2 rfl rfl
              · intro t ht
                rcases List.mem_append.1 ht with h | h
                · exact Nat.lt_succ_of_lt (hfacts.2.2.2 t h)
                · rw [List.mem_singleton.1 h]
                  exact Nat.lt_succ_self _
  | opTurnSteer tid content =>
      simp only [step]
      cases hg : getThread st (some tid) with
      | error e => simp only [turnSteer, hg]; exact hinv
      | ok thread =>
          have hlk : lookupThread st tid = some thread := getThread_ok.1 hg
          have hentry := lookupThread_entry hlk
          have hfacts := hinv.2 (tid, thread) hentry
          cases hact : thread.active_turn_id with
          | none => simp only [turnSteer, hg, hact]; exact hinv
          | some tid' =>
              cases hfind : thread.turns.find? (fun t => t.id == tid') with
              | none => simp only [turnSteer, hg, hact, hfind]; exact hinv
              | some turn =>
                  simp only [turnSteer, hg, hact, hfind]
                  have hthid : thread.id = tid := hfacts.1
                  rw [show setThread st thread.id = setThread st tid from by rw [hthid]]
                  refine stInv_setThread' st tid thread _ st.nextId hinv hlk ?_ ?_ ?_
                    (le_refl _)
                  · rfl
                  · refine threadInv_transport thread _ ?_ ?_ hfacts.2.2.1
                    · refine uft_rel tid' _ ?_ thread.turns
                      intro t
                      exact ⟨rfl, rfl⟩
                    · exact hact.symm
                  · intro t ht
                    rcases uft_mem tid' _ thread.turns t ht with h | ⟨t0, ht0, he⟩
                    · exact hfacts.2.2.2 t h
                    · rw [he]
                      exact hfacts.2.2.2 t0 ht0
  | opTurnInterrupt tid =>
      simp only [step]
      cases hg : getThread st (some tid) with
      | error e => simp only [turnInterrupt, hg]; exact hinv
      | ok thread =>
          have hlk : lookupThread st tid = some thread := getThread_ok.1 hg
          have hentry := lookupThread_entry hlk
          have hfacts := hinv.2 (tid, thread) hentry
          cases hact : thread.active_turn_id with
          | none => simp only [turnInterrupt, hg, hact]; exact hinv
          | some tid' =>
              cases hfind : thread.turns.find? (fun t => t.id == tid') with
              | none => simp only [turnInterrupt, hg, hact, hfind]; exact hinv
              | some turn =>
                  simp only [turnInterrupt, hg, hact, hfind]
                  have hthid : thread.id = tid := hfacts.1
                  rw [show setThread st thread.id = setThread st tid from by rw [hthid]]
                  have hthinv := hfacts.2.2.1
                  have hrest := hthinv.2
                  rw [hact] at hrest
                  refine stInv_setThread' st tid thread _ st.nextId hinv hlk ?_ ?_ ?_
                    (le_refl _)
                  · rfl
                  · refine threadInv_clearActive thread _ ?_ ?_ hthinv
                    · refine uft_map_id tid' _ ?_ thread.turns
                      intro t
                      rfl
                    · refine uft_kills_active tid' _ ?_ thread.turns hthinv.1 hrest.2
                      intro t
                      simp
                  · intro t ht
                    rcases uft_mem tid' _ thread.turns t ht with h | ⟨t0, ht0, he⟩
                    · exact hfacts.2.2.2 t h
                    · rw [he]
                      exact hfacts.2.2.2 t0 ht0
  | opApproval tid ap mode =>
      simp only [step]
      cases hg : getThread st (some tid) with
      | error e => simp only [approvalRespond, hg]; exact hinv
      | ok thread =>
          have hlk : lookupThread st tid = some thread := getThread_ok.1 hg
          have hentry := lookupThread_entry hlk
          have hfacts := hinv.2 (tid, thread) hentry
          have hthid : thread.id = tid := hfacts.1
          simp only [approvalRespond, hg]
          by_cases hap : ap = true
          · rw [if_pos hap, hthid]
            refine stInv_setThread' st tid thread _ st.nextId hinv hlk ?_ ?_ ?_ (le_refl _)
            · exact hthid.symm
            · exact hfacts.2.2.1
            · exact hfacts.2.2.2
          · rw [if_neg hap, hthid]
            exact stInv_setThread' st tid thread thread st.nextId hinv hlk rfl
              hfacts.2.2.1 hfacts.2.2.2 (le_refl _)
  | opEvent tid uid pt pk ev =>
      cases hl : lookupThread st tid with
      | none => simp only [step, hl]; exact hinv
      | some th =>
          cases hfind : th.turns.find? (fun t => t.id == uid) with
          | none => simp only [step, hl, hfind]; exact hinv
          | some tu =>
              simp only [step, hl, hfind]
              have hentry := lookupThread_entry hl
              have hfacts := hinv.2 (tid, th) hentry
              have hframe := pce_frame ev
                { thread := th, turn := tu, partialText := pt, partialThink := pk,
                  notifs := [], nextId := st.nextId, now := 0 }
              have hstat := pce_status ev
                { thread := th, turn := tu, partialText := pt, partialThink := pk,
                  notifs := [], nextId := st.nextId, now := 0 } hok
              have htuid : tu.id = uid := by simpa using List.find?_some hfind
              have htumem : tu ∈ th.turns := List.mem_of_find?_eq_some hfind
              refine stInv_setThread' st tid th _ st.nextId hinv hl ?_ ?_ ?_ (le_refl _)
              · exact hframe.2.2.2.2.1
              · apply threadInv_transport th _ ?_ ?_ hfacts.2.2.1
                · show List.Forall₂ idst th.turns (updateFirstTurn _ uid _)
                  rw [hframe.2.2.1]
                  exact uft_const_rel' uid _ tu hframe.1 hstat th.turns hfind
                · exact hframe.2.2.2.1
              · intro t ht
                rw [hframe.2.2.1] at ht
                rcases uft_mem uid _ th.turns t ht with h | ⟨t0, ht0, he⟩
                · exact hfacts.2.2.2 t h
                · rw [he]
                  rw [show (processClaudeEvent ev
                      { thread := th, turn := tu, partialText := pt, partialThink := pk,
                        notifs := [], nextId := st.nextId, now := 0 }).turn.id = tu.id
                    from hframe.1]
                  exact hfacts.2.2.2 tu htumem
  | opResolve tid uid run =>
      cases hl : lookupThread st tid with
      | none => simp only [step, hl]; exact hinv
      | some th =>
          cases hfind : th.turns.find? (fun t => t.id == uid) with
          | none => simp only [step, hl, hfind]; exact hinv
          | some tu =>
              simp only [step, hl, hfind]
              have hentry := lookupThread_entry hl
              have hfacts := hinv.2 (tid, th) hentry
              have hframe := executeTurn_frame th tu run st.nextId 0
              have htuid : tu.id = uid := by simpa using List.find?_some hfind
              have htumem : tu ∈ th.turns := List.mem_of_find?_eq_some hfind
              have hthinv := hfacts.2.2.1
              have hguard : th.active_turn_id = none ∨ th.active_turn_id = some uid :=
                hok th hl
              have hact : ∀ t ∈ th.turns, t.status = .active → t.id = uid := by
                have hrest := hthinv.2
                rcases hguard with hg0 | hg0 <;> rw [hg0] at hrest
                · exact fun t ht ha => absurd ha (hrest t ht)
                · exact hrest.2
              refine stInv_setThread' st tid th _ st.nextId hinv hl ?_ ?_ ?_ (le_refl _)
              · exact hframe.2.2.1
              · refine threadInv_of_none _ ?_ ?_ ?_
                · exact hframe.2.1
                · show ((updateFirstTurn (executeTurn th tu run st.nextId 0).1.turns uid
                    (fun _ => (executeTurn th tu run st.nextId 0).2.1)).map
                      (fun t => t.id)).Nodup
                  rw [hframe.1, uft_const_map_id uid _ (hframe.2.2.2.1.trans htuid) th.turns]
                  exact hthinv.1
                · intro t ht
                  show t.status ≠ .active
                  rw [hframe.1] at ht
                  exact uft_kills_active uid _ (fun _ => hframe.2.2.2.2) th.turns
                    hthinv.1 hact t ht
              · intro t ht
                rw [hframe.1] at ht
                rcases uft_mem uid _ th.turns t ht with h | ⟨t0, ht0, he⟩
                · exact hfacts.2.2.2 t h
                · rw [he, hframe.2.2.2.1]
                  exact hfacts.2.2.2 tu htumem

theorem stInv_reach (st : ServerSt) (h : ReachOK st) : stInv st := by
  induction h with
  | init => exact ⟨List.nodup_nil, fun p hp => absurd hp (List.not_mem_nil p)⟩
  | next st op _ hok ih => exact stInv_step st op ih hok

/-- C2 (amended): on every state reachable from the empty store by guarded
operations (excluding a mid-run result event of error subtype and a turn
resolution racing a newer active turn, which the source lets break the
invariant transiently), each thread's active_turn_id is set if and only if
exactly one of its turns has status active, and every active turn carries
the id that active_turn_id names. -/
theorem active_turn_invariant (st : ServerSt) (h : ReachOK st)
    (p : Nat × Thread) (hp : p ∈ st.threads) :
    (p.2.active_turn_id.isSome = true ↔ p.2.turns.countP turnIsActive = 1) ∧
    (∀ i, p.2.active_turn_id = some i →
      ∀ t ∈ p.2.turns, t.status = .active → t.id = i) := by
  have hinv := stInv_reach st h
  have hfacts := hinv.2 p hp
  obtain ⟨hnodup, hrest⟩ := hfacts.2.2.1
  cases hptr : p.2.active_turn_id with
  | none =>
      rw [hptr] at hrest
      constructor
      · constructor
        · intro hs
          exact absurd hs (by simp)
        · intro hc
          rw [countP_active_eq_zero p.2.turns hrest] at hc
          exact absurd hc (by decide)
      · intro i hi
        exact absurd hi (by simp)
  | some i' =>
      rw [hptr] at hrest
      obtain ⟨hex, huniq⟩ := hrest
      constructor
      · constructor
        · intro _
          exact countP_active_eq_one i' p.2.turns hnodup hex huniq
        · intro _
          rfl
      · intro i hi t ht hact
        injection hi with h
        exact h ▸ huniq t ht hact

def c2OkOps : List Op := [.opThreadStart none none, .opTurnStart 0 "hi"]

/-- The thread produced by thread/start followed by an accepted turn/start. -/
def c2Thread : Thread :=
  { createThread 0 0 "/" .default with
    turns := [createTurn 1 0 "hi" 0], active_turn_id := some 1 }

theorem active_turn_invariant_witness :
    (0, c2Thread) ∈ (runOps c2OkOps).threads ∧
    (c2Thread.active_turn_id.isSome = true ↔
      c2Thread.turns.countP turnIsActive = 1) := by
  have hmem : (0, c2Thread) ∈ (runOps c2OkOps).threads := by decide
  have hreach : ReachOK (runOps c2OkOps) :=
    ReachOK.next (step ServerSt.empty (.opThreadStart none none)) (.opTurnStart 0 "hi")
      (ReachOK.next ServerSt.empty (.opThreadStart none none) ReachOK.init True.intro)
      True.intro
  exact ⟨hmem, (active_turn_invariant (runOps c2OkOps) hreach (0, c2Thread) hmem).1⟩

/-- Trace refuting the unguarded claim: thread/start, an accepted turn/start,
then a stream result event with error subtype for the running turn. -/
def c2BadOps : List Op :=
  [.opThreadStart none none, .opTurnStart 0 "hi",
   .opEvent 0 1 [] [] (.result "error" none (some "boom") none)]

/-- C2 counterexample: after processClaudeEvent handles a result event of
error subtype, the turn's status is error while the thread's active_turn_id
still names it — the pointer is set with zero active turns. -/
theorem active_turn_mismatch :
    ∃ p ∈ (runOps c2BadOps).threads,
      p.2.active_turn_id.isSome = true ∧ p.2.turns.countP turnIsActive = 0 := by
  decide
